import Mathlib

set_option maxHeartbeats 1600000

/-!
Verification development for the nsf/eventsource repository (a Server-Sent
Events client in Go).  The development shallowly embeds the two core source
files:

* the growable line reader (package `buffer`: `ReadBuffer`, `New`, `grow`,
  `fill`, `findCRLF`, `ReadLine`), and
* the message assembler / reconnect controller (`eventsource.go`:
  `splitLine`, `growMaybeLimit`, `appendLimit`, `perMessageReset`,
  `perRequestReset`, the streaming loop of `processRequest`, `New`, defaults).

Bytes are modelled as `Nat`, Go byte slices as `List Nat`; where the
distinction between a nil slice and a non-nil empty slice is observable
(the `Message` fields and the `Last-Event-Id` logic) a slice is modelled as
`Option (List Nat)` with `none` playing the role of Go `nil`.  An
`io.Reader` is modelled as a list of chunks; each `Read` call takes bytes
from the head chunk (at most the free space of the destination), returns
`io.EOF` once the list is exhausted, and reports no error otherwise, which
matches `strings.NewReader` and any well-behaved body reader.
-/

namespace EventSource

/-- Error values that can flow out of the embedded reader and assembler,
mirroring `io.EOF`, `buffer.ErrBufferFull`, `io.ErrNoProgress`,
`context.Canceled` and any other read error. -/
inductive GoErr where
  | eof
  | bufferFull
  | noProgress
  | canceled
  | readOther
  deriving DecidableEq, Repr

/-- A byte source: the list of chunks successive `Read` calls deliver. -/
abbrev Source := List (List Nat)

/-- One `Read` call on the modelled `io.Reader`: it fills at most `space`
bytes from the head chunk; an exhausted source reports `io.EOF`. -/
def srcRead (src : Source) (space : Nat) : List Nat × Option GoErr × Source :=
  match src with
  | [] => ([], some .eof, [])
  | c :: rest =>
    let taken := c.take space
    let rem := c.drop space
    (taken, none, if rem.isEmpty then rest else rem :: rest)

/-- The `buffer.ReadBuffer` state.  `data` holds the meaningful prefix
`buf[0:w]` of the Go backing array and `bufLen` its allocated length
`len(b.buf)`; bytes of the array beyond `w` are never read by the Go code,
so they are not represented. -/
structure ReadBuffer where
  data : List Nat
  bufLen : Nat
  r : Nat
  w : Nat
  err : Option GoErr
  maxSize : Nat
  crLine : Bool
  src : Source
  deriving DecidableEq, Repr

/-- The `buffer.New` constructor: the initial array length is
`min(maxSize, defaultBufSize)` with `defaultBufSize = 4096`. -/
def ReadBuffer.new (src : Source) (maxSize : Nat) : ReadBuffer :=
  { data := [], bufLen := min maxSize 4096, r := 0, w := 0,
    err := none, maxSize := maxSize, crLine := false, src := src }

/-- The retry loop inside `fill`: up to `maxConsecutiveEmptyReads = 100`
`Read` calls; a read that returns data or an error ends the loop, and
exhausting the budget raises `io.ErrNoProgress`. -/
def fillRead : ReadBuffer → Nat → ReadBuffer
  | b, 0 => { b with err := some .noProgress }
  | b, i + 1 =>
    let res := srcRead b.src (b.bufLen - b.w)
    let b1 := { b with data := b.data ++ res.1, w := b.w + res.1.length, src := res.2.2 }
    match res.2.1 with
    | some e => { b1 with err := some e }
    | none => if res.1.length > 0 then b1 else fillRead b1 i

/-- The compaction step at the top of `fill`: discard the already-consumed
prefix `buf[0:r]` by shifting the unread bytes to the start. -/
def compact (b : ReadBuffer) : ReadBuffer :=
  if 0 < b.r then { b with data := b.data.drop b.r, w := b.w - b.r, r := 0 } else b

/-- The `grow` method: double the array up to `maxSize`; report failure when
already at `maxSize`. -/
def grow (b : ReadBuffer) : ReadBuffer × Bool :=
  if b.maxSize ≤ b.bufLen then (b, false)
  else ({ b with bufLen := min b.maxSize (b.bufLen * 2) }, true)

/-- The `fill` method: compact, grow when the array is full (recording
`ErrBufferFull` when growth is impossible), then read. -/
def fill (b : ReadBuffer) : ReadBuffer :=
  let b := compact b
  if b.bufLen ≤ b.w then
    let g := grow b
    if g.2 then fillRead g.1 100 else { g.1 with err := some .bufferFull }
  else fillRead b 100

/-- The `findCRLF` helper: index of the first carriage-return or line-feed. -/
def findCRLF : List Nat → Option Nat
  | [] => none
  | x :: xs => if x = 13 ∨ x = 10 then some 0 else (findCRLF xs).map (· + 1)

/-- Total number of bytes still held by the source. -/
def chunksBytes (src : Source) : Nat := (src.map List.length).sum

/-- Progress measure of a source: bytes plus chunk count. -/
def srcMeas (src : Source) : Nat := chunksBytes src + src.length

/-- Progress measure of a reader state: every iteration of the `ReadLine`
loop that does not return either consumes source material or records a
pending error, so this quantity strictly decreases. -/
def meas (b : ReadBuffer) : Nat := srcMeas b.src + (if b.err = none then 1 else 0)

/-- The block at the top of the `ReadLine` loop: when the previous line
ended on a bare carriage-return and the buffer is non-empty, clear the flag
and silently consume a following line-feed. -/
def skipPendingLF (b : ReadBuffer) : ReadBuffer :=
  if b.crLine = true ∧ b.r < b.w then
    let b1 := { b with crLine := false }
    if b.data.getD b.r 0 = 10 then { b1 with r := b1.r + 1 } else b1
  else b

/-- The `ReadLine` loop body, with an explicit iteration budget.  The budget
is only a device to make the recursion structural: the adequacy theorem
`readLineGo_pure` below shows that `meas b + 1` iterations always
suffice, so `ReadLine` computes exactly the Go loop.
`s` is the already-scanned length (`do not rescan area we scanned before`). -/
def readLineGo : Nat → ReadBuffer → Nat → List Nat × Option GoErr × ReadBuffer
  | 0, b, _ => ([], none, b)
  | fuel + 1, b0, s =>
    let b := skipPendingLF b0
    match findCRLF (b.data.drop (b.r + s)) with
    | some j =>
      ((b.data.drop b.r).take (j + s), none,
        { b with crLine := b.data.getD (b.r + (j + s)) 0 == 13, r := b.r + (j + s) + 1 })
    | none =>
      match b.err with
      | some e => (b.data.drop b.r, some e, { b with r := b.w, err := none })
      | none => readLineGo fuel (fill b) (b.w - b.r)

/-- The `ReadLine` method. -/
def ReadLine (b : ReadBuffer) : List Nat × Option GoErr × ReadBuffer :=
  readLineGo (meas b + 1) b 0

/-- Repeatedly call `ReadLine`, collecting the `(line, err)` results. -/
def realRun (b : ReadBuffer) : Nat → List (List Nat × Option GoErr) × ReadBuffer
  | 0 => ([], b)
  | k + 1 =>
    let q := ReadLine b
    let rest := realRun q.2.2 k
    ((q.1, q.2.1) :: rest.1, rest.2)

/-- ASCII bytes of a string literal. -/
def bytes (s : String) : List Nat := s.data.map Char.toNat

/-! ### A purely sequential model of `ReadLine`

`pureReadLine` describes one `ReadLine` call as a function of the remaining
byte stream (buffered bytes plus un-read source bytes), the pending
bare-carriage-return flag, and the capacity cap.  The adequacy theorem
`readLineGo_pure` proves that the embedded Go loop computes exactly this
function; the universal claims about the reader are then settled on the
sequential model. -/

/-- Consume a pending line-feed that belongs to the previous bare
carriage-return terminator. -/
def skipLF (c : Bool) (rest : List Nat) : List Nat :=
  if c ∧ rest.head? = some 10 then rest.tail else rest

/-- One `ReadLine` call as a function of the remaining stream `rest`, the
pending carriage-return flag `c` and the capacity `N`; the result is
`(line, error, new flag, new remaining stream)`. -/
def pureReadLine (c : Bool) (rest : List Nat) (N : Nat) :
    List Nat × Option GoErr × Bool × List Nat :=
  let r0 := skipLF c rest
  match findCRLF r0 with
  | some i =>
    if i < N then (r0.take i, none, r0.getD i 0 == 13, r0.drop (i + 1))
    else (r0.take N, some .bufferFull, false, r0.drop N)
  | none =>
    if N ≤ r0.length then (r0.take N, some .bufferFull, false, r0.drop N)
    else (r0, some .eof, c && rest.isEmpty, [])

/-- Iterate `pureReadLine`, collecting the `(line, err)` results. -/
def pureRun (c : Bool) (rest : List Nat) (N : Nat) : Nat → List (List Nat × Option GoErr)
  | 0 => []
  | k + 1 =>
    let q := pureReadLine c rest N
    (q.1, q.2.1) :: pureRun q.2.2.1 q.2.2.2 N k

/-- The abstract remaining stream of a reader state: the unread buffered
bytes followed by everything the source still holds. -/
def absRest (b : ReadBuffer) : List Nat := b.data.drop b.r ++ b.src.flatten

/-- The reachable-state invariant of the reader: the represented prefix has
length `w`, cursors are ordered, the array never outgrows `maxSize`, no
error is pending between calls, and the source only delivers non-empty
chunks (a source that keeps returning `(0, nil)` would instead end in
`io.ErrNoProgress`). -/
def Inv (b : ReadBuffer) : Prop :=
  b.data.length = b.w ∧ b.r ≤ b.w ∧ b.w ≤ b.bufLen ∧ b.bufLen ≤ b.maxSize ∧
    1 ≤ b.bufLen ∧ b.err = none ∧ ∀ c ∈ b.src, c ≠ []

instance (b : ReadBuffer) : Decidable (Inv b) := by
  unfold Inv; infer_instance

/-- The correspondence relation between the result of the embedded
`ReadLine` and the result of `pureReadLine`. -/
abbrev Sim (N : Nat) (out : List Nat × Option GoErr × ReadBuffer)
    (q : List Nat × Option GoErr × Bool × List Nat) : Prop :=
  out.1 = q.1 ∧ out.2.1 = q.2.1 ∧ out.2.2.crLine = q.2.2.1 ∧
    absRest out.2.2 = q.2.2.2 ∧ Inv out.2.2 ∧ out.2.2.maxSize = N

/-- A source whose chunks are all non-empty (a `Read` returning `0, nil`
forever would end in `io.ErrNoProgress`, which the claims do not exercise). -/
def goodSrc (src : Source) : Prop := ∀ c ∈ src, c ≠ []

instance (src : Source) : Decidable (goodSrc src) := by
  unfold goodSrc; infer_instance

/-! #### The weak invariant: line lengths and the array bound, with no
assumption on the source at all -/

/-- The part of the invariant that holds regardless of source behaviour or
pending errors. -/
def InvWeak (b : ReadBuffer) : Prop :=
  b.data.length = b.w ∧ b.r ≤ b.w ∧ b.w ≤ b.bufLen ∧ b.bufLen ≤ b.maxSize

/-- The byte stream consisting of the given lines, each followed by the
terminator `t`. -/
def encodeLines (ls : List (List Nat)) (t : List Nat) : List Nat :=
  (ls.map (· ++ t)).flatten

/-- The canonical `ReadLine` output sequence for a terminated list of lines:
each line with no error, then empty lines with end-of-stream forever. -/
def canonRun (ls : List (List Nat)) : Nat → List (List Nat × Option GoErr)
  | 0 => []
  | k + 1 =>
    match ls with
    | [] => ([], some .eof) :: canonRun [] k
    | l :: ls => (l, none) :: canonRun ls k

/-! ### The `eventsource.go` layer: field parser, message assembler and
reconnect controller -/

/-- A Go byte slice where nil-ness is observable: `none` models `nil`. -/
abbrev GoSlice := Option (List Nat)

/-- The errors recorded or dispatched by `eventsource.go` (the wrapped
`ErrBufferFull` errors per field, the response-validation errors, and the
transport/read errors). -/
inductive ESErr where
  | idTooLong
  | eventTooLong
  | dataTooLong
  | invalidStatus
  | invalidContentType
  | httpError
  | bodyReadError
  deriving DecidableEq, Repr

/-- The observable effect of `growMaybeLimit`: contents never change; the
only observable effect is that a nil slice becomes an allocated (non-nil)
one exactly when an allocation happens, i.e. when `cap(nil) = 0 < reqCap`.
The `limit` argument only caps the new capacity, which is unobservable. -/
def growMaybeLimit (s : GoSlice) (reqCap : Nat) (limit : Nat) : GoSlice :=
  let _ := limit
  match s with
  | none => if 0 < reqCap then some [] else none
  | some l => some l

/-- Go `append` on a slice: contents are concatenated; appending nothing to
nil keeps nil, appending something to nil allocates. -/
def appendOpt (s : GoSlice) (ns : List Nat) : GoSlice :=
  match s with
  | none => if ns.isEmpty then none else some ns
  | some l => some (l ++ ns)

/-- The `appendLimit` helper: append `ns` to `s` under the size cap
`limit`, with a line-feed separator when `s` is non-empty; on overflow it
returns `(nil, ErrBufferFull)`. -/
def appendLimit (s : GoSlice) (ns : List Nat) (limit : Nat) :
    GoSlice × Option GoErr :=
  if (s.getD []).length ≠ 0 then
    let nlen := (s.getD []).length + 1 + ns.length
    if nlen > limit then (none, some .bufferFull)
    else
      let s1 := growMaybeLimit s nlen limit
      let s2 := appendOpt s1 [10]
      (appendOpt s2 ns, none)
  else
    let nlen := ns.length
    if nlen > limit then (none, some .bufferFull)
    else (appendOpt (growMaybeLimit s nlen limit) ns, none)

/-- The `splitLine` field parser: split on the first colon, stripping at
most one leading space from the value; no colon means the whole line is the
key with a nil value. -/
def splitLine (line : List Nat) : List Nat × GoSlice :=
  match line.findIdx? (fun x => x == 58) with
  | none => (line, none)
  | some i =>
    let key := line.take i
    let value := line.drop (i + 1)
    if i + 1 < line.length ∧ line.getD (i + 1) 0 = 32 then (key, some (line.drop (i + 2)))
    else (key, some value)

/-- The `Message` structure; each field is nil when the event did not
provide it, per its documentation. -/
structure Message where
  id : GoSlice
  event : GoSlice
  data : GoSlice
  deriving DecidableEq, Repr

def emptyMessage : Message := ⟨none, none, none⟩

/-- The `BufferParameters` structure. -/
structure BufferParameters where
  maxID : Nat
  maxEvent : Nat
  maxData : Nat
  maxReadBuffer : Nat
  deriving DecidableEq, Repr

/-- The mutable assembler/controller state of an `EventSource`. The retry
timeout is a `time.Duration`, i.e. a 64-bit signed nanosecond count. -/
structure ESState where
  idBuf : GoSlice
  eventBuf : GoSlice
  dataBuf : GoSlice
  msgErr : Option ESErr
  retryTimeout : Int
  bp : BufferParameters
  deriving DecidableEq, Repr

/-- Go re-slicing `s[:0]`: nil stays nil, an allocated slice becomes an
allocated empty slice. -/
def trunc (s : GoSlice) : GoSlice := s.map (fun _ => ([] : List Nat))

/-- `perMessageReset`: truncate all three field buffers and clear the
per-message error. -/
def perMessageReset (es : ESState) : ESState :=
  { es with
    idBuf := trunc es.idBuf, eventBuf := trunc es.eventBuf,
    dataBuf := trunc es.dataBuf, msgErr := none }

/-- `perRequestReset`: drop all three field buffers and the error. -/
def perRequestReset (es : ESState) : ESState :=
  { es with idBuf := none, eventBuf := none, dataBuf := none, msgErr := none }

def digitVal (c : Nat) : Option Nat :=
  if 48 ≤ c ∧ c ≤ 57 then some (c - 48) else none

def parseDigitsAux : List Nat → Nat → Option Nat
  | [], acc => some acc
  | c :: cs, acc =>
    match digitVal c with
    | some d => parseDigitsAux cs (acc * 10 + d)
    | none => none

/-- A non-empty all-decimal-digit string, as an unsigned value. -/
def parseDigits (ds : List Nat) : Option Nat :=
  if ds.isEmpty then none else parseDigitsAux ds 0

/-- `strconv.ParseInt(s, 10, 64)` as used on the retry field: an optional
sign, a non-empty run of decimal digits, and a signed 64-bit range check
(out-of-range input makes `ParseInt` return a non-nil error, which the
caller treats as failure). -/
def parseInt10 (s : List Nat) : Option Int :=
  match s with
  | [] => none
  | c :: rest =>
    let p := if c = 43 then (false, rest) else if c = 45 then (true, rest) else (false, s)
    match parseDigits p.2 with
    | none => none
    | some n =>
      let v : Int := if p.1 then -(n : Int) else (n : Int)
      if -(2 ^ 63) ≤ v ∧ v < 2 ^ 63 then some v else none

/-- Signed 64-bit wraparound, for the `time.Duration(ms) * time.Millisecond`
multiplication. -/
def wrap64 (x : Int) : Int := (x + 2 ^ 63) % 2 ^ 64 - 2 ^ 63

def knownFieldNameID : List Nat := bytes "id"

def knownFieldNameEvent : List Nat := bytes "event"

def knownFieldNameData : List Nat := bytes "data"

def knownFieldNameRetry : List Nat := bytes "retry"

/-- One iteration of the streaming loop of `processRequest`, applied to a
successfully read line (the `err == nil` path): blank-line dispatch,
error-draining, comment skipping, and the four known fields. Returns the
new state and the dispatched message or error, if any. -/
def procLine (es : ESState) (line : List Nat) :
    ESState × Option (Message × Option ESErr) :=
  if line.length = 0 then
    match es.msgErr with
    | none => (perMessageReset es, some (⟨es.idBuf, es.eventBuf, es.dataBuf⟩, none))
    | some e => (perMessageReset es, some (emptyMessage, some e))
  else if es.msgErr ≠ none then (es, none)
  else
    let kv := splitLine line
    let key := kv.1
    let val := kv.2.getD []
    if key.length = 0 then (es, none)
    else if key = knownFieldNameID then
      let res := appendLimit (trunc es.idBuf) val es.bp.maxID
      match res.2 with
      | some _ => ({ es with idBuf := res.1, msgErr := some .idTooLong }, none)
      | none => ({ es with idBuf := res.1 }, none)
    else if key = knownFieldNameEvent then
      let res := appendLimit (trunc es.eventBuf) val es.bp.maxEvent
      match res.2 with
      | some _ => ({ es with eventBuf := res.1, msgErr := some .eventTooLong }, none)
      | none => ({ es with eventBuf := res.1 }, none)
    else if key = knownFieldNameData then
      let res := appendLimit es.dataBuf val es.bp.maxData
      match res.2 with
      | some _ => ({ es with dataBuf := res.1, msgErr := some .dataTooLong }, none)
      | none => ({ es with dataBuf := res.1 }, none)
    else if key = knownFieldNameRetry then
      match parseInt10 val with
      | some ms => ({ es with retryTimeout := wrap64 (ms * 1000000) }, none)
      | none => (es, none)
    else (es, none)

/-- Feed a list of already-read lines to the assembler, collecting the
dispatched messages and errors. -/
def processLines (es : ESState) : List (List Nat) →
    List (Message × Option ESErr) × ESState
  | [] => ([], es)
  | l :: ls =>
    let r := procLine es l
    let rest := processLines r.1 ls
    (r.2.toList ++ rest.1, rest.2)

/-- The outcome of one `client.Do` call: cancellation, another transport
failure, or a response with a status, a Content-Type and a body. -/
inductive ConnRes where
  | canceled
  | connFailed
  | ok (status : Nat) (contentType : List Nat) (body : Source)
  deriving DecidableEq, Repr

def ctEventStream : List Nat := bytes "text/event-stream"

/-- The `Last-Event-Id` header attached to an outgoing request: present
exactly when the identifier buffer is non-empty. -/
def lastEventId (es : ESState) : Option (List Nat) :=
  if (es.idBuf.getD []).length ≠ 0 then some (es.idBuf.getD []) else none

/-- The read-and-process loop of `processRequest`, with a fuel bound on the
number of `ReadLine` calls.  A read error is checked before the line is
used, exactly as in the source: cancellation stops the session, end of
stream silently retries, any other error is dispatched and retried. -/
def streamLoop : Nat → ESState → ReadBuffer →
    List (Message × Option ESErr) × ESState × Bool
  | 0, es, _ => ([], es, true)
  | fuel + 1, es, rb =>
    let q := ReadLine rb
    match q.2.1 with
    | some .canceled => ([], es, false)
    | some .eof => ([], es, true)
    | some _ => ([(emptyMessage, some .bodyReadError)], es, true)
    | none =>
      let r := procLine es q.1
      let rest := streamLoop fuel r.1 q.2.2
      (r.2.toList ++ rest.1, rest.2.1, rest.2.2)

/-- One `processRequest` call: build the request (recording the
`Last-Event-Id` header it carries), validate the response, reset the
per-request buffers, and stream the body.  Returns the header carried by
this request, the dispatches, the final state, and whether the session
continues. -/
def processRequest (fuel : Nat) (es : ESState) (cr : ConnRes) :
    Option (List Nat) × List (Message × Option ESErr) × ESState × Bool :=
  let hdr := lastEventId es
  match cr with
  | .canceled => (hdr, [], es, false)
  | .connFailed => (hdr, [(emptyMessage, some .httpError)], es, true)
  | .ok status ct body =>
    if status ≠ 200 then (hdr, [(emptyMessage, some .invalidStatus)], es, true)
    else if ct ≠ ctEventStream then
      (hdr, [(emptyMessage, some .invalidContentType)], es, true)
    else
      let es1 := perRequestReset es
      let res := streamLoop fuel es1 (ReadBuffer.new body es1.bp.maxReadBuffer)
      (hdr, res.1, res.2.1, res.2.2)

/-- The session loop `for es.processRequest() {}`, driven by a list of
connection outcomes; records each request's `Last-Event-Id` header and
dispatches. -/
def runES (fuel : Nat) (es : ESState) :
    List ConnRes → List (Option (List Nat) × List (Message × Option ESErr))
  | [] => []
  | c :: cs =>
    let r := processRequest fuel es c
    (r.1, r.2.1) :: (if r.2.2.2 then runES fuel r.2.2.1 cs else [])

/-- Default resolution of `BufferParameters` as done by `New`. -/
def resolveBP (bp : BufferParameters) : BufferParameters :=
  let maxID := if bp.maxID = 0 then 256 else bp.maxID
  let maxEvent := if bp.maxEvent = 0 then 256 else bp.maxEvent
  let maxData := if bp.maxData = 0 then 4194304 else bp.maxData
  let maxRB := if bp.maxReadBuffer = 0 then max (max maxID maxEvent) maxData + 10
               else bp.maxReadBuffer
  ⟨maxID, maxEvent, maxData, maxRB⟩

/-- The state set up by `New`: nil buffers, no error, a one-second retry
timeout (`10^9` nanoseconds), and resolved buffer parameters. -/
def newES (bp : BufferParameters) : ESState :=
  { idBuf := none, eventBuf := none, dataBuf := none, msgErr := none,
    retryTimeout := 1000000000, bp := resolveBP bp }

/-- A retry value parsed as a non-negative integer count of milliseconds:
a non-empty run of decimal digits with no sign.  This definition is
modelled from the specification's wording, not from the source; it exists
only to compare the specified parse against the one the code performs
(`parseInt10`, the embedding of `strconv.ParseInt`). -/
def retrySpecParse (s : List Nat) : Option Nat := parseDigits s

/-! ### The Go test suite of `buffer_test.go`, replayed on the embedding. -/

theorem testReadBuffer_crlf :
    (realRun (ReadBuffer.new [bytes "foo\r\nbar"] 4096) 3).1 =
      [(bytes "foo", none), (bytes "bar", some .eof), ([], some .eof)] := by decide

theorem testReadBuffer_cr :
    (realRun (ReadBuffer.new [bytes "foo\rbar"] 4096) 3).1 =
      [(bytes "foo", none), (bytes "bar", some .eof), ([], some .eof)] := by decide

theorem testReadBuffer_lf :
    (realRun (ReadBuffer.new [bytes "foo\nbar"] 4096) 3).1 =
      [(bytes "foo", none), (bytes "bar", some .eof), ([], some .eof)] := by decide

theorem testReadBuffer_trailing_lf :
    (realRun (ReadBuffer.new [bytes "foo\r\nbar\n"] 4096) 3).1 =
      [(bytes "foo", none), (bytes "bar", none), ([], some .eof)] := by decide

theorem testReadBuffer_blank :
    (realRun (ReadBuffer.new [bytes "foo\r\nbar\n\r\n"] 4096) 4).1 =
      [(bytes "foo", none), (bytes "bar", none), ([], none), ([], some .eof)] := by decide

theorem testReadBuffer_cap7 :
    (realRun (ReadBuffer.new [bytes "foobar"] 7) 1).1 = [(bytes "foobar", some .eof)] := by
  decide

theorem testReadBuffer_cap6 :
    (realRun (ReadBuffer.new [bytes "foobar"] 6) 1).1 = [(bytes "foobar", some .bufferFull)] := by
  decide

theorem testReadBuffer_cap5 :
    (realRun (ReadBuffer.new [bytes "foobar"] 5) 1).1 = [(bytes "fooba", some .bufferFull)] := by
  decide

theorem testReadBuffer_crlf_split :
    (realRun (ReadBuffer.new [bytes "foo\r", bytes "\nbar\n"] 4096) 3).1 =
      [(bytes "foo", none), (bytes "bar", none), ([], some .eof)] := by decide

/-! #### Progress of `fill` along the measure -/

theorem srcMeas_srcRead_le (src : Source) (space : Nat) :
    srcMeas (srcRead src space).2.2 ≤ srcMeas src := by
  cases src with
  | nil => simp [srcRead]
  | cons c rest =>
    by_cases h : (c.drop space).isEmpty
    · simp [srcRead, h, srcMeas, chunksBytes]
      omega
    · simp [srcRead, h, srcMeas, chunksBytes, List.length_drop]

theorem meas_fillRead_lt (n : Nat) (b : ReadBuffer) (herr : b.err = none) :
    meas (fillRead b n) < meas b := by
  induction n generalizing b with
  | zero => simp [fillRead, meas, herr]
  | succ n ih =>
    rw [fillRead]
    cases hsrc : b.src with
    | nil => simp [srcRead, hsrc, meas, herr, srcMeas, chunksBytes]
    | cons ch t =>
      simp only [hsrc, srcRead]
      by_cases htk : (ch.take (b.bufLen - b.w)).length > 0
      · have hmin : 0 < min (b.bufLen - b.w) ch.length := by
          simpa [List.length_take] using htk
        rw [if_pos htk]
        by_cases hrem : (ch.drop (b.bufLen - b.w)).isEmpty
        · rw [if_pos hrem]
          simp [meas, herr, hsrc, srcMeas, chunksBytes, List.length_take,
            List.length_drop]
          omega
        · rw [if_neg hrem]
          simp [meas, herr, hsrc, srcMeas, chunksBytes, List.length_take,
            List.length_drop]
          omega
      · rw [if_neg htk]
        have h1 := ih { b with
          data := b.data ++ ch.take (b.bufLen - b.w),
          w := b.w + (ch.take (b.bufLen - b.w)).length,
          src := if (ch.drop (b.bufLen - b.w)).isEmpty then t else
            ch.drop (b.bufLen - b.w) :: t } herr
        refine lt_of_lt_of_le h1 ?_
        have h2 := srcMeas_srcRead_le (ch :: t) (b.bufLen - b.w)
        simp only [srcRead] at h2
        have hm1 : meas { b with
            data := b.data ++ ch.take (b.bufLen - b.w),
            w := b.w + (ch.take (b.bufLen - b.w)).length,
            src := if (ch.drop (b.bufLen - b.w)).isEmpty then t else
              ch.drop (b.bufLen - b.w) :: t } =
            srcMeas (if (ch.drop (b.bufLen - b.w)).isEmpty then t else
              ch.drop (b.bufLen - b.w) :: t) + 1 := by
          simp [meas, herr]
        have hm2 : meas b = srcMeas (ch :: t) + 1 := by
          simp [meas, herr, hsrc]
        rw [hm1, hm2]
        omega

theorem meas_fill_lt (b : ReadBuffer) (herr : b.err = none) :
    meas (fill b) < meas b := by
  have hc : (compact b).err = none := by unfold compact; split <;> simp [herr]
  have hcs : (compact b).src = b.src := by unfold compact; split <;> simp
  have hmb : meas (compact b) = meas b := by simp [meas, hc, hcs, herr]
  have hge : (grow (compact b)).1.err = none := by unfold grow; split <;> simp [hc]
  have hgs : (grow (compact b)).1.src = (compact b).src := by
    unfold grow; split <;> simp
  simp only [fill]
  split
  · split
    · refine lt_of_lt_of_le (meas_fillRead_lt _ _ hge) (le_of_eq ?_)
      simp [meas, hge, hgs, hcs, herr]
    · have : meas { (grow (compact b)).1 with err := some .bufferFull } =
          srcMeas b.src := by simp [meas, hgs, hcs]
      rw [this]
      simp [meas, herr]
  · rw [← hmb]
    exact meas_fillRead_lt _ _ hc

/-! #### Characterization of `compact`, `grow`, `fillRead` and `fill` -/

theorem compact_eq (b : ReadBuffer) :
    compact b = { b with data := b.data.drop b.r, w := b.w - b.r, r := 0 } := by
  unfold compact
  split
  · rfl
  · have hr : b.r = 0 := by omega
    cases b
    simp_all

theorem grow_of_max (b : ReadBuffer) (h : b.maxSize ≤ b.bufLen) : grow b = (b, false) := by
  unfold grow
  rw [if_pos h]

theorem grow_of_lt (b : ReadBuffer) (h : b.bufLen < b.maxSize) :
    grow b = ({ b with bufLen := min b.maxSize (b.bufLen * 2) }, true) := by
  unfold grow
  rw [if_neg (by omega)]

theorem fillRead_eq_of_nil (b : ReadBuffer) (n : Nat) (hb : b.src = []) :
    fillRead b (n + 1) = { b with err := some .eof } := by
  cases b
  simp_all [fillRead, srcRead]

theorem fillRead_eq_of_cons (b : ReadBuffer) (n : Nat) (ch : List Nat) (t : Source)
    (hb : b.src = ch :: t) (hch : ch ≠ []) (hsp : b.w < b.bufLen) :
    fillRead b (n + 1) =
      { b with data := b.data ++ ch.take (b.bufLen - b.w),
               w := b.w + (ch.take (b.bufLen - b.w)).length,
               src := if (ch.drop (b.bufLen - b.w)).isEmpty then t
                      else ch.drop (b.bufLen - b.w) :: t } := by
  have hch' : 0 < ch.length := List.length_pos.mpr hch
  have htk : (ch.take (b.bufLen - b.w)).length > 0 := by
    simp only [List.length_take]
    omega
  rw [fillRead]
  simp only [hb, srcRead]
  rw [if_pos htk]

/-- How one `fill` call transforms a valid reader state: either the buffer
already holds `maxSize` unread bytes and `ErrBufferFull` is recorded, or the
array (possibly grown to some `L`) has free space and a single `Read` is
issued. -/
theorem fill_cases (b : ReadBuffer) (hrw : b.r ≤ b.w) (hwb : b.w ≤ b.bufLen)
    (hbm : b.bufLen ≤ b.maxSize) (hb1 : 1 ≤ b.bufLen) :
    (b.maxSize ≤ b.w - b.r ∧
      fill b = { b with data := b.data.drop b.r, w := b.w - b.r, r := 0,
                        err := some .bufferFull }) ∨
    (∃ L, b.bufLen ≤ L ∧ L ≤ b.maxSize ∧ b.w - b.r < L ∧
      fill b = fillRead { b with data := b.data.drop b.r, w := b.w - b.r, r := 0,
                                 bufLen := L } 100) := by
  have hcb := compact_eq b
  simp only [fill, hcb]
  by_cases hfull : b.bufLen ≤ b.w - b.r
  · have heq : b.w - b.r = b.bufLen := by omega
    by_cases hmax : b.maxSize ≤ b.bufLen
    · left
      constructor
      · omega
      · rw [grow_of_max _ (by simpa using hmax)]
        simp [heq]
    · right
      refine ⟨min b.maxSize (b.bufLen * 2), by omega, by omega, by omega, ?_⟩
      rw [grow_of_lt _ (by simpa using (by omega : b.bufLen < b.maxSize))]
      simp [heq]
  · right
    refine ⟨b.bufLen, le_refl _, hbm, by omega, ?_⟩
    rw [if_neg (by simpa using hfull)]

/-! #### `findCRLF` facts -/

theorem findCRLF_append_of_none {a : List Nat} (c : List Nat) (ha : findCRLF a = none) :
    findCRLF (a ++ c) = (findCRLF c).map (· + a.length) := by
  induction a with
  | nil => cases h : findCRLF c <;> simp [h]
  | cons x xs ih =>
    by_cases hx : x = 13 ∨ x = 10
    · rw [findCRLF, if_pos hx] at ha
      exact absurd ha (by simp)
    · rw [findCRLF, if_neg hx] at ha
      have ha' : findCRLF xs = none := by
        cases h : findCRLF xs <;> simp [h] at ha ⊢
      rw [List.cons_append, findCRLF, if_neg hx, ih ha']
      cases h : findCRLF c <;> simp [h]
      omega

theorem findCRLF_append_of_some {a : List Nat} (c : List Nat) {i : Nat}
    (ha : findCRLF a = some i) : findCRLF (a ++ c) = some i := by
  induction a generalizing i with
  | nil => simp [findCRLF] at ha
  | cons x xs ih =>
    by_cases hx : x = 13 ∨ x = 10
    · rw [findCRLF, if_pos hx] at ha
      rw [List.cons_append, findCRLF, if_pos hx]
      exact ha
    · rw [findCRLF, if_neg hx] at ha
      rw [List.cons_append, findCRLF, if_neg hx]
      cases h : findCRLF xs with
      | none => rw [h] at ha; simp at ha
      | some j =>
        rw [h] at ha
        simp at ha
        rw [ih h]
        simpa using ha

theorem findCRLF_none_iff (l : List Nat) :
    findCRLF l = none ↔ ∀ x ∈ l, ¬(x = 13 ∨ x = 10) := by
  induction l with
  | nil => simp [findCRLF]
  | cons x xs ih =>
    by_cases hx : x = 13 ∨ x = 10
    · rw [findCRLF, if_pos hx]
      simp only [List.mem_cons]
      constructor
      · intro h; simp at h
      · intro h; exact absurd hx (h x (Or.inl rfl))
    · rw [findCRLF, if_neg hx]
      simp only [List.mem_cons]
      constructor
      · intro h y hy
        rcases hy with rfl | hy
        · exact hx
        · have : findCRLF xs = none := by
            cases hf : findCRLF xs <;> simp [hf] at h ⊢
          exact (ih.mp this) y hy
      · intro h
        have : findCRLF xs = none := ih.mpr (fun y hy => h y (Or.inr hy))
        simp [this]

theorem findCRLF_some_lt {l : List Nat} {i : Nat} (h : findCRLF l = some i) :
    i < l.length := by
  induction l generalizing i with
  | nil => simp [findCRLF] at h
  | cons x xs ih =>
    by_cases hx : x = 13 ∨ x = 10
    · rw [findCRLF, if_pos hx] at h
      simp at h
      simp only [List.length_cons]
      omega
    · rw [findCRLF, if_neg hx] at h
      cases hf : findCRLF xs with
      | none => rw [hf] at h; simp at h
      | some j =>
        rw [hf] at h
        simp at h
        have := ih hf
        simp only [List.length_cons]
        omega

/-! #### The `skipPendingLF` block and its pure counterpart -/

theorem skipPendingLF_idem (b : ReadBuffer) :
    skipPendingLF (skipPendingLF b) = skipPendingLF b := by
  unfold skipPendingLF
  by_cases h : b.crLine = true ∧ b.r < b.w
  · rw [if_pos h]
    by_cases h10 : b.data.getD b.r 0 = 10
    · rw [if_pos h10, if_neg (by simp)]
    · rw [if_neg h10, if_neg (by simp)]
  · rw [if_neg h, if_neg h]

theorem readLineGo_skip (f : Nat) (b : ReadBuffer) (s : Nat) :
    readLineGo (f + 1) b s = readLineGo (f + 1) (skipPendingLF b) s := by
  conv_lhs => rw [readLineGo]
  conv_rhs => rw [readLineGo]
  rw [skipPendingLF_idem]

theorem pureReadLine_skip (c : Bool) (rest : List Nat) (N : Nat) (h : rest ≠ []) :
    pureReadLine c rest N = pureReadLine false (skipLF c rest) N := by
  unfold pureReadLine
  have h0 : skipLF false (skipLF c rest) = skipLF c rest := by simp [skipLF]
  rw [h0]
  have hflag : (c && rest.isEmpty) = false := by
    simp [List.isEmpty_iff, h]
  rw [hflag]
  simp

/-! #### Views of the abstract remaining stream -/

theorem absRest_length {b : ReadBuffer} (hlen : b.data.length = b.w) :
    (absRest b).length = (b.w - b.r) + b.src.flatten.length := by
  simp [absRest, hlen]

theorem absRest_take {b : ReadBuffer} (hlen : b.data.length = b.w) {k : Nat}
    (hk : k ≤ b.w - b.r) : (absRest b).take k = (b.data.drop b.r).take k :=
  List.take_append_of_le_length (by simp [hlen]; omega)

theorem absRest_drop {b : ReadBuffer} (hlen : b.data.length = b.w) {k : Nat}
    (hk : k ≤ b.w - b.r) :
    (absRest b).drop k = b.data.drop (b.r + k) ++ b.src.flatten := by
  rw [absRest, List.drop_append_of_le_length (by simp [hlen]; omega), List.drop_drop]

theorem absRest_getD {b : ReadBuffer} (hlen : b.data.length = b.w) {k : Nat}
    (hk : k < b.w - b.r) : (absRest b).getD k 0 = b.data.getD (b.r + k) 0 := by
  rw [List.getD_eq_getElem?_getD, List.getD_eq_getElem?_getD, absRest,
    List.getElem?_append_left (by simp [hlen]; omega), List.getElem?_drop]

theorem drop_split (l : List Nat) (r s : Nat) :
    l.drop r = (l.drop r).take s ++ l.drop (r + s) := by
  conv_lhs => rw [← List.take_append_drop s (l.drop r)]
  rw [List.drop_drop]

theorem skipLF_false (rest : List Nat) : skipLF false rest = rest := by
  simp [skipLF]

theorem skipPendingLF_of_false (b : ReadBuffer) (h : b.crLine = false) :
    skipPendingLF b = b := by
  unfold skipPendingLF
  rw [if_neg]
  simp [h]

/-- Adequacy of the embedded `ReadLine` loop: on every valid state, with
enough fuel, it computes exactly the sequential model `pureReadLine`, the
result state is valid again, and `maxSize` is unchanged.  The scanned
offset `s` must cover only terminator-free bytes, and a pending
carriage-return flag forces `s = 0` (both hold at every real call site). -/
theorem readLineGo_pure (f : Nat) : ∀ (b : ReadBuffer) (s : Nat),
    meas b < f → Inv b → b.r + s ≤ b.w →
    findCRLF ((b.data.drop b.r).take s) = none →
    (b.crLine = true → s = 0) →
    Sim b.maxSize (readLineGo f b s) (pureReadLine b.crLine (absRest b) b.maxSize) := by
  induction f with
  | zero =>
    intro b s hf _ _ _ _
    omega
  | succ f ih =>
    have key : ∀ (b1 : ReadBuffer) (s1 : Nat), meas b1 < f + 1 → Inv b1 →
        b1.r + s1 ≤ b1.w → findCRLF ((b1.data.drop b1.r).take s1) = none →
        b1.crLine = false →
        Sim b1.maxSize (readLineGo (f + 1) b1 s1)
          (pureReadLine false (absRest b1) b1.maxSize) := by
      intro b1 s1 hf hInv hs hclean hcf
      obtain ⟨hlen, hrw, hwb, hbm, hb1, herr, hsrcg⟩ := hInv
      have hnoskip := skipPendingLF_of_false b1 hcf
      have hdl : (b1.data.drop b1.r).length = b1.w - b1.r := by simp [hlen]
      have htks : ((b1.data.drop b1.r).take s1).length = s1 := by
        simp only [List.length_take, hdl]
        omega
      cases hfind : findCRLF (b1.data.drop (b1.r + s1)) with
      | some j =>
        have hjl := findCRLF_some_lt hfind
        have hdl2 : (b1.data.drop (b1.r + s1)).length = b1.w - (b1.r + s1) := by
          simp [hlen]
        have hi : j + s1 < b1.w - b1.r := by omega
        have hfound1 : findCRLF (b1.data.drop b1.r) = some (j + s1) := by
          conv_lhs => rw [drop_split b1.data b1.r s1]
          rw [findCRLF_append_of_none _ hclean, hfind, htks]
          rfl
        have hfoundR : findCRLF (absRest b1) = some (j + s1) :=
          findCRLF_append_of_some _ hfound1
        have hiN : j + s1 < b1.maxSize := by omega
        simp only [readLineGo, hnoskip, hfind]
        simp only [pureReadLine, skipLF_false, hfoundR]
        rw [if_pos hiN]
        refine ⟨?_, rfl, ?_, ?_, ?_, rfl⟩
        · exact (absRest_take hlen (le_of_lt hi)).symm
        · show (b1.data.getD (b1.r + (j + s1)) 0 == 13) =
            ((absRest b1).getD (j + s1) 0 == 13)
          rw [absRest_getD hlen hi]
        · show absRest { b1 with
              crLine := b1.data.getD (b1.r + (j + s1)) 0 == 13,
              r := b1.r + (j + s1) + 1 } = (absRest b1).drop (j + s1 + 1)
          rw [absRest_drop hlen (by omega)]
          simp only [absRest]
          rw [Nat.add_assoc]
        · exact ⟨hlen, by show b1.r + (j + s1) + 1 ≤ b1.w; omega, hwb, hbm, hb1,
            herr, hsrcg⟩
      | none =>
        have hcleanAll : findCRLF (b1.data.drop b1.r) = none := by
          conv_lhs => rw [drop_split b1.data b1.r s1]
          rw [findCRLF_append_of_none _ hclean, hfind]
          rfl
        have hone : 1 ≤ meas b1 := by simp [meas, herr]
        simp only [readLineGo, hnoskip, hfind, herr]
        rcases fill_cases b1 hrw hwb hbm hb1 with ⟨hfull, hfe⟩ | ⟨L, hL1, hL2, hL3, hfe⟩
        · -- the compacted buffer already holds maxSize bytes: ErrBufferFull
          have hwrN : b1.w - b1.r = b1.maxSize := by omega
          obtain ⟨f1, rfl⟩ : ∃ f1, f = f1 + 1 := ⟨f - 1, by omega⟩
          rw [hfe]
          have hnoskip2 := skipPendingLF_of_false { b1 with
            data := b1.data.drop b1.r, w := b1.w - b1.r, r := 0,
            err := some GoErr.bufferFull } hcf
          have hd2 : (b1.data.drop b1.r).drop (0 + (b1.w - b1.r)) = [] :=
            List.drop_eq_nil_of_le (by simp [hdl])
          simp only [readLineGo, hnoskip2, hd2, findCRLF]
          have hlenR := absRest_length hlen
          have hpure : pureReadLine false (absRest b1) b1.maxSize =
              ((absRest b1).take b1.maxSize, some .bufferFull, false,
                (absRest b1).drop b1.maxSize) := by
            simp only [pureReadLine, skipLF_false]
            split
            · rename_i i heq
              have hmap : findCRLF (absRest b1) =
                  (findCRLF b1.src.flatten).map (· + (b1.data.drop b1.r).length) :=
                findCRLF_append_of_none _ hcleanAll
              rw [heq] at hmap
              cases hff : findCRLF b1.src.flatten with
              | none => rw [hff] at hmap; simp at hmap
              | some jj =>
                rw [hff, hdl] at hmap
                simp at hmap
                rw [if_neg (by omega)]
            · rw [if_pos (by omega)]
          rw [hpure]
          refine ⟨?_, rfl, hcf, ?_, ?_, rfl⟩
          · rw [List.drop_zero, absRest_take hlen (by omega),
              List.take_of_length_le (by omega)]
          · show absRest { b1 with
                data := b1.data.drop b1.r, w := b1.w - b1.r,
                r := b1.w - b1.r, err := none } = (absRest b1).drop b1.maxSize
            rw [absRest_drop hlen (by omega)]
            simp only [absRest]
            rw [List.drop_eq_nil_of_le
                (show (b1.data.drop b1.r).length ≤ b1.w - b1.r by simp [hdl]),
              List.drop_eq_nil_of_le (by omega)]
          · exact ⟨hdl, le_refl _, by show b1.w - b1.r ≤ b1.bufLen; omega, hbm, hb1,
              rfl, hsrcg⟩
        · -- room is available (possibly after growing to L): a single Read
          cases hsrc2 : b1.src with
          | nil =>
            have hfe2 : fill b1 = { b1 with
                data := b1.data.drop b1.r, w := b1.w - b1.r, r := 0, bufLen := L,
                err := some GoErr.eof } := by
              rw [hfe, show (100 : Nat) = 99 + 1 from rfl,
                fillRead_eq_of_nil _ 99 (show (({ b1 with
                  data := b1.data.drop b1.r,
                  w := b1.w - b1.r, r := 0, bufLen := L } : ReadBuffer)).src = []
                  from hsrc2)]
            rw [hfe2]
            obtain ⟨f1, rfl⟩ : ∃ f1, f = f1 + 1 := ⟨f - 1, by omega⟩
            have hnoskip2 := skipPendingLF_of_false { b1 with
              data := b1.data.drop b1.r, w := b1.w - b1.r, r := 0, bufLen := L,
              err := some GoErr.eof } hcf
            have hd2 : (b1.data.drop b1.r).drop (0 + (b1.w - b1.r)) = [] :=
              List.drop_eq_nil_of_le (by simp [hdl])
            simp only [readLineGo, hnoskip2, hd2, findCRLF]
            have hRd : absRest b1 = b1.data.drop b1.r := by
              simp [absRest, hsrc2]
            have hfR : findCRLF (absRest b1) = none := by rw [hRd]; exact hcleanAll
            have hpure : pureReadLine false (absRest b1) b1.maxSize =
                (absRest b1, some .eof, false, []) := by
              simp only [pureReadLine, skipLF_false, hfR]
              rw [if_neg (by rw [hRd, hdl]; omega)]
              simp
            rw [hpure]
            refine ⟨?_, rfl, hcf, ?_, ?_, rfl⟩
            · rw [List.drop_zero, hRd]
            · show absRest { b1 with
                  data := b1.data.drop b1.r, w := b1.w - b1.r,
                  r := b1.w - b1.r, bufLen := L, err := none } = ([] : List Nat)
              simp only [absRest]
              rw [List.drop_eq_nil_of_le (by simp [hdl])]
              simp [hsrc2]
            · exact ⟨hdl, le_refl _, by show b1.w - b1.r ≤ L; omega, hL2,
                by show 1 ≤ L; omega, rfl, hsrcg⟩
          | cons ch t =>
            have hch : ch ≠ [] := hsrcg ch (by rw [hsrc2]; exact List.mem_cons_self _ _)
            have hfe2 : fill b1 = { b1 with
                data := b1.data.drop b1.r ++ ch.take (L - (b1.w - b1.r)),
                w := (b1.w - b1.r) + (ch.take (L - (b1.w - b1.r))).length, r := 0,
                bufLen := L,
                src := if (ch.drop (L - (b1.w - b1.r))).isEmpty then t
                       else ch.drop (L - (b1.w - b1.r)) :: t } := by
              rw [hfe, show (100 : Nat) = 99 + 1 from rfl,
                fillRead_eq_of_cons _ 99 ch t
                  (show (({ b1 with
                    data := b1.data.drop b1.r, w := b1.w - b1.r, r := 0,
                    bufLen := L } : ReadBuffer)).src = ch :: t from hsrc2) hch
                  (show b1.w - b1.r < L from hL3)]
            rw [hfe2]
            have htkl := List.length_take_le (L - (b1.w - b1.r)) ch
            have hflat : ch.take (L - (b1.w - b1.r)) ++
                (if (ch.drop (L - (b1.w - b1.r))).isEmpty then t
                 else ch.drop (L - (b1.w - b1.r)) :: t).flatten = (ch :: t).flatten := by
              by_cases hre : (ch.drop (L - (b1.w - b1.r))).isEmpty
              · rw [if_pos hre, List.flatten_cons,
                  List.take_of_length_le (by
                    have h1 := List.drop_eq_nil_iff.mp (List.isEmpty_iff.mp hre)
                    omega)]
              · rw [if_neg hre, List.flatten_cons, List.flatten_cons,
                  ← List.append_assoc, List.take_append_drop]
            have hIb2 : Inv { b1 with
                data := b1.data.drop b1.r ++ ch.take (L - (b1.w - b1.r)),
                w := (b1.w - b1.r) + (ch.take (L - (b1.w - b1.r))).length, r := 0,
                bufLen := L,
                src := if (ch.drop (L - (b1.w - b1.r))).isEmpty then t
                       else ch.drop (L - (b1.w - b1.r)) :: t } := by
              refine ⟨by simp [hdl], Nat.zero_le _, ?_, hL2, by show 1 ≤ L; omega,
                herr, ?_⟩
              · show (b1.w - b1.r) + (ch.take (L - (b1.w - b1.r))).length ≤ L
                omega
              · intro c hc
                by_cases hre : (ch.drop (L - (b1.w - b1.r))).isEmpty
                · rw [if_pos hre] at hc
                  exact hsrcg c (by rw [hsrc2]; exact List.mem_cons_of_mem _ hc)
                · rw [if_neg hre] at hc
                  rcases List.mem_cons.mp hc with rfl | hc
                  · exact fun hcon => hre (by rw [hcon]; rfl)
                  · exact hsrcg c (by rw [hsrc2]; exact List.mem_cons_of_mem _ hc)
            have hmeas2 : meas { b1 with
                data := b1.data.drop b1.r ++ ch.take (L - (b1.w - b1.r)),
                w := (b1.w - b1.r) + (ch.take (L - (b1.w - b1.r))).length, r := 0,
                bufLen := L,
                src := if (ch.drop (L - (b1.w - b1.r))).isEmpty then t
                       else ch.drop (L - (b1.w - b1.r)) :: t } < f := by
              have h1 : meas (fill b1) < meas b1 := meas_fill_lt b1 herr
              rw [hfe2] at h1
              omega
            have hclean2 : findCRLF (((b1.data.drop b1.r ++
                ch.take (L - (b1.w - b1.r))).drop 0).take (b1.w - b1.r)) = none := by
              rw [List.drop_zero, ← hdl, List.take_left]
              exact hcleanAll
            have H := ih { b1 with
                data := b1.data.drop b1.r ++ ch.take (L - (b1.w - b1.r)),
                w := (b1.w - b1.r) + (ch.take (L - (b1.w - b1.r))).length, r := 0,
                bufLen := L,
                src := if (ch.drop (L - (b1.w - b1.r))).isEmpty then t
                       else ch.drop (L - (b1.w - b1.r)) :: t } (b1.w - b1.r)
              hmeas2 hIb2 (by
                show 0 + (b1.w - b1.r) ≤ (b1.w - b1.r) + (ch.take (L - (b1.w - b1.r))).length
                omega) hclean2 (by
                intro hcon
                exact absurd (show b1.crLine = true from hcon) (by rw [hcf]; simp))
            have habs2 : absRest { b1 with
                data := b1.data.drop b1.r ++ ch.take (L - (b1.w - b1.r)),
                w := (b1.w - b1.r) + (ch.take (L - (b1.w - b1.r))).length, r := 0,
                bufLen := L,
                src := if (ch.drop (L - (b1.w - b1.r))).isEmpty then t
                       else ch.drop (L - (b1.w - b1.r)) :: t } = absRest b1 := by
              simp only [absRest, List.drop_zero]
              rw [List.append_assoc, hflat, hsrc2]
            rw [habs2] at H
            simp only [hcf] at H ⊢
            exact H
    intro b s hf hInv hs hclean hcr
    by_cases hcl : b.crLine = true
    · by_cases hrww : b.r < b.w
      · -- a pending bare carriage-return with buffered bytes available
        have hs0 : s = 0 := hcr hcl
        subst hs0
        obtain ⟨hlen, hrw, hwb, hbm, hb1, herr, hsrcg⟩ := hInv
        have hdne : b.data.drop b.r ≠ [] := by
          intro hcon
          have h1 := congrArg List.length hcon
          simp [hlen] at h1
          omega
        have hRne : absRest b ≠ [] := by
          intro hc
          exact hdne (List.append_eq_nil.mp hc).1
        have hhead : (absRest b).head? = some (b.data.getD b.r 0) := by
          rw [absRest, List.head?_append,
            List.drop_eq_getElem_cons (show b.r < b.data.length by omega)]
          simp [List.getD_eq_getElem?_getD, List.getElem?_eq_getElem
            (show b.r < b.data.length by omega)]
        by_cases h10 : b.data.getD b.r 0 = 10
        · have hskip : skipPendingLF b = { b with crLine := false, r := b.r + 1 } := by
            unfold skipPendingLF
            rw [if_pos ⟨hcl, hrww⟩, if_pos h10]
          have hsl : skipLF true (absRest b) = (absRest b).tail := by
            unfold skipLF
            rw [if_pos ⟨rfl, by rw [hhead, h10]⟩]
          have habs1 : absRest { b with crLine := false, r := b.r + 1 } =
              skipLF true (absRest b) := by
            rw [hsl]
            simp only [absRest]
            rw [List.tail_append_of_ne_nil hdne]
            congr 1
            rw [List.drop_eq_getElem_cons (show b.r < b.data.length by omega)]
            rfl
          rw [readLineGo_skip, hskip, hcl, pureReadLine_skip _ _ _ hRne, ← habs1]
          exact key { b with crLine := false, r := b.r + 1 } 0 hf
            ⟨hlen, by show b.r + 1 ≤ b.w; omega, hwb, hbm, hb1, herr, hsrcg⟩
            (by show b.r + 1 + 0 ≤ b.w; omega) (by simp [findCRLF]) rfl
        · have hskip : skipPendingLF b = { b with crLine := false } := by
            unfold skipPendingLF
            rw [if_pos ⟨hcl, hrww⟩, if_neg h10]
          have hsl : skipLF true (absRest b) = absRest b := by
            unfold skipLF
            rw [if_neg]
            rintro ⟨-, hcon⟩
            rw [hhead] at hcon
            exact h10 (by simpa using hcon)
          have habs1 : absRest { b with crLine := false } = skipLF true (absRest b) := by
            rw [hsl]
            rfl
          rw [readLineGo_skip, hskip, hcl, pureReadLine_skip _ _ _ hRne, ← habs1]
          exact key { b with crLine := false } 0 hf
            ⟨hlen, hrw, hwb, hbm, hb1, herr, hsrcg⟩
            (by show b.r + 0 ≤ b.w; omega) (by simp [findCRLF]) rfl
      · -- a pending bare carriage-return with an empty buffer: defer the skip
        have hs0 : s = 0 := hcr hcl
        subst hs0
        obtain ⟨hlen, hrw, hwb, hbm, hb1, herr, hsrcg⟩ := hInv
        have hre : b.r = b.w := by omega
        have hdnil : b.data.drop b.r = [] := List.drop_eq_nil_of_le (by omega)
        have hnoskip : skipPendingLF b = b := by
          unfold skipPendingLF
          rw [if_neg]
          rintro ⟨-, hcon⟩
          omega
        have hdnil0 : b.data.drop (b.r + 0) = [] := by
          rw [Nat.add_zero]
          exact hdnil
        simp only [readLineGo, hnoskip, hdnil0, findCRLF, herr]
        have habsR : absRest b = b.src.flatten := by
          simp [absRest, hdnil]
        have hdl : (b.data.drop b.r).length = b.w - b.r := by simp [hlen]
        rcases fill_cases b hrw hwb hbm hb1 with ⟨hfull, hfe⟩ | ⟨L, hL1, hL2, hL3, hfe⟩
        · omega
        · cases hsrc2 : b.src with
          | nil =>
            have hfe2 : fill b = { b with
                data := b.data.drop b.r, w := b.w - b.r, r := 0, bufLen := L,
                err := some GoErr.eof } := by
              rw [hfe, show (100 : Nat) = 99 + 1 from rfl,
                fillRead_eq_of_nil _ 99 (show (({ b with
                  data := b.data.drop b.r,
                  w := b.w - b.r, r := 0, bufLen := L } : ReadBuffer)).src = []
                  from hsrc2)]
            rw [hfe2]
            have hone : 1 ≤ meas b := by simp [meas, herr]
            obtain ⟨f1, rfl⟩ : ∃ f1, f = f1 + 1 := ⟨f - 1, by omega⟩
            have hnoskip2 : skipPendingLF { b with
                data := b.data.drop b.r,
                w := b.w - b.r, r := 0, bufLen := L, err := some GoErr.eof } =
                { b with
                  data := b.data.drop b.r, w := b.w - b.r, r := 0, bufLen := L,
                  err := some GoErr.eof } := by
              unfold skipPendingLF
              rw [if_neg]
              rintro ⟨-, hcon⟩
              revert hcon
              show ¬ ((0 : Nat) < b.w - b.r)
              omega
            have hd2 : (b.data.drop b.r).drop (0 + (b.w - b.r)) = [] :=
              List.drop_eq_nil_of_le (by simp [hdl])
            simp only [readLineGo, hnoskip2, hd2, findCRLF]
            have hRnil : absRest b = [] := by
              rw [habsR, hsrc2]
              rfl
            have hpure : pureReadLine b.crLine (absRest b) b.maxSize =
                ([], some .eof, b.crLine, []) := by
              rw [hRnil]
              simp only [pureReadLine, skipLF]
              rw [if_neg (by rintro ⟨-, hcon⟩; simp at hcon)]
              rw [findCRLF]
              rw [if_neg (by show ¬ (b.maxSize ≤ ([] : List Nat).length); simp; omega)]
              simp
            rw [hpure]
            refine ⟨by rw [List.drop_zero, hdnil], rfl, hcl ▸ rfl, ?_, ?_, rfl⟩
            · show absRest { b with
                  data := b.data.drop b.r, w := b.w - b.r,
                  r := b.w - b.r, bufLen := L, err := none } = ([] : List Nat)
              simp only [absRest]
              rw [List.drop_eq_nil_of_le (by simp [hdl])]
              simp [hsrc2]
            · refine ⟨hdl, le_refl _, by show b.w - b.r ≤ L; omega, hL2,
                by show 1 ≤ L; omega, rfl, ?_⟩
              intro c hc
              exact absurd (hsrc2 ▸ hc) (by simp)
          | cons ch t =>
            have hch : ch ≠ [] := hsrcg ch (by rw [hsrc2]; exact List.mem_cons_self _ _)
            have hfe2 : fill b = { b with
                data := b.data.drop b.r ++ ch.take (L - (b.w - b.r)),
                w := (b.w - b.r) + (ch.take (L - (b.w - b.r))).length, r := 0,
                bufLen := L,
                src := if (ch.drop (L - (b.w - b.r))).isEmpty then t
                       else ch.drop (L - (b.w - b.r)) :: t } := by
              rw [hfe, show (100 : Nat) = 99 + 1 from rfl,
                fillRead_eq_of_cons _ 99 ch t
                  (show (({ b with
                    data := b.data.drop b.r, w := b.w - b.r, r := 0,
                    bufLen := L } : ReadBuffer)).src = ch :: t from hsrc2) hch
                  (show b.w - b.r < L from hL3)]
            rw [hfe2]
            have htkl := List.length_take_le (L - (b.w - b.r)) ch
            have hflat : ch.take (L - (b.w - b.r)) ++
                (if (ch.drop (L - (b.w - b.r))).isEmpty then t
                 else ch.drop (L - (b.w - b.r)) :: t).flatten = (ch :: t).flatten := by
              by_cases hre2 : (ch.drop (L - (b.w - b.r))).isEmpty
              · rw [if_pos hre2, List.flatten_cons,
                  List.take_of_length_le (by
                    have h1 := List.drop_eq_nil_iff.mp (List.isEmpty_iff.mp hre2)
                    omega)]
              · rw [if_neg hre2, List.flatten_cons, List.flatten_cons,
                  ← List.append_assoc, List.take_append_drop]
            have hIb2 : Inv { b with
                data := b.data.drop b.r ++ ch.take (L - (b.w - b.r)),
                w := (b.w - b.r) + (ch.take (L - (b.w - b.r))).length, r := 0,
                bufLen := L,
                src := if (ch.drop (L - (b.w - b.r))).isEmpty then t
                       else ch.drop (L - (b.w - b.r)) :: t } := by
              refine ⟨by simp [hdl], Nat.zero_le _, ?_, hL2, by show 1 ≤ L; omega,
                herr, ?_⟩
              · show (b.w - b.r) + (ch.take (L - (b.w - b.r))).length ≤ L
                omega
              · intro c hc
                by_cases hre2 : (ch.drop (L - (b.w - b.r))).isEmpty
                · rw [if_pos hre2] at hc
                  exact hsrcg c (by rw [hsrc2]; exact List.mem_cons_of_mem _ hc)
                · rw [if_neg hre2] at hc
                  rcases List.mem_cons.mp hc with rfl | hc
                  · exact fun hcon => hre2 (by rw [hcon]; rfl)
                  · exact hsrcg c (by rw [hsrc2]; exact List.mem_cons_of_mem _ hc)
            have hmeas2 : meas { b with
                data := b.data.drop b.r ++ ch.take (L - (b.w - b.r)),
                w := (b.w - b.r) + (ch.take (L - (b.w - b.r))).length, r := 0,
                bufLen := L,
                src := if (ch.drop (L - (b.w - b.r))).isEmpty then t
                       else ch.drop (L - (b.w - b.r)) :: t } < f := by
              have h1 : meas (fill b) < meas b := meas_fill_lt b herr
              rw [hfe2] at h1
              omega
            have hclean2 : findCRLF (((b.data.drop b.r ++
                ch.take (L - (b.w - b.r))).drop 0).take (b.w - b.r)) = none := by
              rw [List.drop_zero, ← hdl, List.take_left]
              rw [hdnil]
              rfl
            have H := ih { b with
                data := b.data.drop b.r ++ ch.take (L - (b.w - b.r)),
                w := (b.w - b.r) + (ch.take (L - (b.w - b.r))).length, r := 0,
                bufLen := L,
                src := if (ch.drop (L - (b.w - b.r))).isEmpty then t
                       else ch.drop (L - (b.w - b.r)) :: t } (b.w - b.r)
              hmeas2 hIb2 (by
                show 0 + (b.w - b.r) ≤ (b.w - b.r) + (ch.take (L - (b.w - b.r))).length
                omega) hclean2 (by intro _; omega)
            have habs2 : absRest { b with
                data := b.data.drop b.r ++ ch.take (L - (b.w - b.r)),
                w := (b.w - b.r) + (ch.take (L - (b.w - b.r))).length, r := 0,
                bufLen := L,
                src := if (ch.drop (L - (b.w - b.r))).isEmpty then t
                       else ch.drop (L - (b.w - b.r)) :: t } = absRest b := by
              simp only [absRest, List.drop_zero]
              rw [List.append_assoc, hflat, hsrc2]
            rw [habs2] at H
            exact H
    · have hcf : b.crLine = false := by
        cases hcc : b.crLine
        · rfl
        · exact absurd hcc hcl
      rw [hcf]
      exact key b s hf hInv hs hclean hcf

/-- Adequacy of `ReadLine` on a valid state. -/
theorem ReadLine_pure (b : ReadBuffer) (hInv : Inv b) :
    Sim b.maxSize (ReadLine b) (pureReadLine b.crLine (absRest b) b.maxSize) := by
  refine readLineGo_pure (meas b + 1) b 0 (by omega) hInv ?_ (by simp [findCRLF])
    (fun _ => rfl)
  obtain ⟨-, hrw, -⟩ := hInv
  omega

/-- Run-level adequacy: a sequence of `ReadLine` calls from a valid state
returns exactly the outputs of the sequential model, preserves validity, and
never changes `maxSize`. -/
theorem realRun_pure (k : Nat) : ∀ b, Inv b →
    (realRun b k).1 = pureRun b.crLine (absRest b) b.maxSize k ∧
    Inv (realRun b k).2 ∧ (realRun b k).2.maxSize = b.maxSize := by
  induction k with
  | zero => intro b hInv; exact ⟨rfl, hInv, rfl⟩
  | succ k ih =>
    intro b hInv
    obtain ⟨h1, h2, h3, h4, h5, h6⟩ := ReadLine_pure b hInv
    obtain ⟨ih1, ih2, ih3⟩ := ih (ReadLine b).2.2 h5
    simp only [realRun, pureRun]
    refine ⟨?_, ih2, by rw [ih3, h6]⟩
    rw [h1, h2, ih1, h3, h4, h6]

theorem new_Inv (src : Source) (N : Nat) (hN : 1 ≤ N) (hg : goodSrc src) :
    Inv (ReadBuffer.new src N) :=
  ⟨rfl, le_refl _, Nat.zero_le _, Nat.min_le_left _ _,
    Nat.le_min.mpr ⟨hN, by omega⟩, rfl, hg⟩

theorem absRest_new (src : Source) (N : Nat) :
    absRest (ReadBuffer.new src N) = src.flatten := rfl

theorem fillRead_weak (n : Nat) : ∀ b : ReadBuffer, InvWeak b →
    InvWeak (fillRead b n) ∧ (fillRead b n).maxSize = b.maxSize := by
  induction n with
  | zero => intro b h; exact ⟨h, rfl⟩
  | succ n ih =>
    intro b h
    obtain ⟨h1, h2, h3, h4⟩ := h
    rw [fillRead]
    cases hsrc : b.src with
    | nil =>
      simp only [hsrc, srcRead]
      refine ⟨⟨?_, ?_, ?_, h4⟩, trivial⟩
      · show (b.data ++ []).length = b.w + ([] : List Nat).length
        simp [h1]
      · show b.r ≤ b.w + ([] : List Nat).length
        simpa using h2
      · show b.w + ([] : List Nat).length ≤ b.bufLen
        simpa using h3
    | cons ch t =>
      simp only [hsrc, srcRead]
      have htk : (ch.take (b.bufLen - b.w)).length ≤ b.bufLen - b.w :=
        List.length_take_le _ _
      by_cases hn : (ch.take (b.bufLen - b.w)).length > 0
      · rw [if_pos hn]
        refine ⟨⟨?_, ?_, ?_, h4⟩, rfl⟩
        · show (b.data ++ ch.take (b.bufLen - b.w)).length =
            b.w + (ch.take (b.bufLen - b.w)).length
          simp [h1]
        · show b.r ≤ b.w + (ch.take (b.bufLen - b.w)).length
          omega
        · show b.w + (ch.take (b.bufLen - b.w)).length ≤ b.bufLen
          omega
      · rw [if_neg hn]
        refine ih _ ⟨?_, ?_, ?_, h4⟩
        · show (b.data ++ ch.take (b.bufLen - b.w)).length =
            b.w + (ch.take (b.bufLen - b.w)).length
          simp [h1]
        · show b.r ≤ b.w + (ch.take (b.bufLen - b.w)).length
          omega
        · show b.w + (ch.take (b.bufLen - b.w)).length ≤ b.bufLen
          omega

theorem fill_weak (b : ReadBuffer) (h : InvWeak b) :
    InvWeak (fill b) ∧ (fill b).maxSize = b.maxSize := by
  obtain ⟨h1, h2, h3, h4⟩ := h
  have hcb := compact_eq b
  have hcw : InvWeak (compact b) := by
    rw [hcb]
    exact ⟨by simp [h1], by show (0:Nat) ≤ b.w - b.r; omega,
      by show b.w - b.r ≤ b.bufLen; omega, h4⟩
  simp only [fill, hcb]
  split
  · rename_i hfull0
    have hfull : b.bufLen ≤ b.w - b.r := by simpa using hfull0
    by_cases hg : b.maxSize ≤ b.bufLen
    · rw [show grow { b with data := b.data.drop b.r, w := b.w - b.r, r := 0 } =
          ({ b with data := b.data.drop b.r, w := b.w - b.r, r := 0 }, false) from
          grow_of_max _ hg]
      simp only [Bool.false_eq_true, if_false]
      rw [hcb] at hcw
      exact ⟨hcw, trivial⟩
    · rw [show grow { b with data := b.data.drop b.r, w := b.w - b.r, r := 0 } =
          ({ { b with data := b.data.drop b.r, w := b.w - b.r, r := 0 } with
            bufLen := min b.maxSize (b.bufLen * 2) }, true) from
          grow_of_lt _ (by show b.bufLen < b.maxSize; omega)]
      simp only [if_true]
      have hres := fillRead_weak 100 { b with
        data := b.data.drop b.r, w := b.w - b.r, r := 0,
        bufLen := min b.maxSize (b.bufLen * 2) }
        ⟨by simp [h1], Nat.zero_le _,
          by show b.w - b.r ≤ min b.maxSize (b.bufLen * 2); omega,
          by show min b.maxSize (b.bufLen * 2) ≤ b.maxSize; omega⟩
      exact hres
  · rw [hcb] at hcw
    exact fillRead_weak 100 _ hcw

theorem skipPendingLF_weak (b : ReadBuffer) (h : InvWeak b) :
    InvWeak (skipPendingLF b) ∧ (skipPendingLF b).maxSize = b.maxSize := by
  obtain ⟨h1, h2, h3, h4⟩ := h
  unfold skipPendingLF
  by_cases hc : b.crLine = true ∧ b.r < b.w
  · rw [if_pos hc]
    by_cases h10 : b.data.getD b.r 0 = 10
    · rw [if_pos h10]
      exact ⟨⟨h1, by show b.r + 1 ≤ b.w; omega, h3, h4⟩, rfl⟩
    · rw [if_neg h10]
      exact ⟨⟨h1, h2, h3, h4⟩, rfl⟩
  · rw [if_neg hc]
    exact ⟨⟨h1, h2, h3, h4⟩, rfl⟩

/-- Capacity safety of the loop: whatever the source does, every line ever
returned is at most `maxSize` bytes long, the weak invariant is preserved,
and `maxSize` is unchanged (so the backing array stays within the cap). -/
theorem readLineGo_weak (f : Nat) : ∀ (b : ReadBuffer) (s : Nat), InvWeak b →
    (readLineGo f b s).1.length ≤ b.maxSize ∧ InvWeak (readLineGo f b s).2.2 ∧
      (readLineGo f b s).2.2.maxSize = b.maxSize := by
  induction f with
  | zero => intro b s h; exact ⟨Nat.zero_le _, h, rfl⟩
  | succ f ih =>
    intro b s h
    obtain ⟨hsw, hmax⟩ := skipPendingLF_weak b h
    obtain ⟨h1, h2, h3, h4⟩ := hsw
    rw [readLineGo]
    cases hfind : findCRLF ((skipPendingLF b).data.drop ((skipPendingLF b).r + s)) with
    | some j =>
      simp only [hfind]
      have hjl := findCRLF_some_lt hfind
      have hlt : (skipPendingLF b).r + (j + s) < (skipPendingLF b).w := by
        simp [h1] at hjl
        omega
      refine ⟨?_, ⟨h1, by show (skipPendingLF b).r + (j + s) + 1 ≤ (skipPendingLF b).w; omega,
        h3, h4⟩, hmax⟩
      calc (((skipPendingLF b).data.drop (skipPendingLF b).r).take (j + s)).length
          ≤ j + s := List.length_take_le _ _
        _ ≤ b.maxSize := by rw [← hmax]; omega
    | none =>
      simp only [hfind]
      cases herr : (skipPendingLF b).err with
      | some e =>
        simp only [herr]
        refine ⟨?_, ⟨h1, le_refl _, h3, h4⟩, hmax⟩
        have : ((skipPendingLF b).data.drop (skipPendingLF b).r).length =
            (skipPendingLF b).w - (skipPendingLF b).r := by simp [h1]
        rw [this, ← hmax]
        omega
      | none =>
        simp only [herr]
        obtain ⟨hfw, hfm⟩ := fill_weak (skipPendingLF b) ⟨h1, h2, h3, h4⟩
        obtain ⟨g1, g2, g3⟩ := ih (fill (skipPendingLF b)) ((skipPendingLF b).w -
          (skipPendingLF b).r) hfw
        exact ⟨by rw [← hmax, ← hfm]; exact g1, g2, by rw [g3, hfm, hmax]⟩

theorem ReadLine_weak (b : ReadBuffer) (h : InvWeak b) :
    (ReadLine b).1.length ≤ b.maxSize ∧ InvWeak (ReadLine b).2.2 ∧
      (ReadLine b).2.2.maxSize = b.maxSize :=
  readLineGo_weak (meas b + 1) b 0 h

/-- Capacity safety of a whole run of `ReadLine` calls. -/
theorem realRun_weak (k : Nat) : ∀ b, InvWeak b →
    (∀ out ∈ (realRun b k).1, out.1.length ≤ b.maxSize) ∧
      InvWeak (realRun b k).2 ∧ (realRun b k).2.maxSize = b.maxSize := by
  induction k with
  | zero => intro b h; exact ⟨by simp [realRun], h, rfl⟩
  | succ k ih =>
    intro b h
    obtain ⟨g1, g2, g3⟩ := ReadLine_weak b h
    obtain ⟨i1, i2, i3⟩ := ih (ReadLine b).2.2 g2
    simp only [realRun]
    refine ⟨?_, i2, by rw [i3, g3]⟩
    intro out hout
    rcases List.mem_cons.mp hout with rfl | hout
    · exact g1
    · rw [← g3]
      exact i1 out hout

/-! #### Facts about the sequential model -/

theorem skipLF_of_no10 (c : Bool) (rest : List Nat) (h : findCRLF rest = none) :
    skipLF c rest = rest := by
  unfold skipLF
  rw [if_neg]
  rintro ⟨-, hcon⟩
  cases rest with
  | nil => simp at hcon
  | cons x xs =>
    simp at hcon
    exact ((findCRLF_none_iff _).mp h x (List.mem_cons_self _ _)) (Or.inr hcon)

/-- A run of the model on an exhausted stream delivers an endless sequence
of empty lines with the end-of-stream condition. -/
theorem pureRun_nil (k : Nat) : ∀ (c : Bool) (N : Nat), 1 ≤ N →
    pureRun c [] N k = List.replicate k ([], some .eof) := by
  induction k with
  | zero => intro c N _; rfl
  | succ k ih =>
    intro c N hN
    have hq : pureReadLine c [] N = ([], some .eof, c, []) := by
      simp only [pureReadLine, skipLF]
      rw [if_neg (by rintro ⟨-, hcon⟩; simp at hcon)]
      rw [findCRLF]
      rw [if_neg (by simp; omega)]
      simp
    simp only [pureRun, hq, List.replicate]
    rw [ih c N hN]

theorem pureReadLine_cons10 (r : List Nat) (N : Nat) :
    pureReadLine true (10 :: r) N = pureReadLine false r N := by
  unfold pureReadLine
  rw [show skipLF true (10 :: r) = r from by simp [skipLF], skipLF_false]
  rw [show (true && (10 :: r).isEmpty) = (false && r.isEmpty) from by simp]

theorem pureReadLine_true_of (r : List Nat) (hne : r ≠ []) (h10 : r.head? ≠ some 10)
    (N : Nat) : pureReadLine true r N = pureReadLine false r N := by
  unfold pureReadLine
  rw [show skipLF true r = r from by
      unfold skipLF
      rw [if_neg]
      rintro ⟨-, h⟩
      exact h10 h,
    skipLF_false]
  rw [show (true && r.isEmpty) = (false && r.isEmpty) from by
    simp [List.isEmpty_iff, hne]]

theorem pureRun_of_step_eq {c1 c2 : Bool} {r1 r2 : List Nat} {N : Nat}
    (h : pureReadLine c1 r1 N = pureReadLine c2 r2 N) (k : Nat) :
    pureRun c1 r1 N k = pureRun c2 r2 N k := by
  cases k with
  | zero => rfl
  | succ k => simp only [pureRun, h]

theorem pureRun_flag (c : Bool) (r : List Nat) (N k : Nat) (hN : 1 ≤ N)
    (h10 : r.head? ≠ some 10) : pureRun c r N k = pureRun false r N k := by
  cases c with
  | false => rfl
  | true =>
    by_cases hr : r = []
    · subst hr
      rw [pureRun_nil k true N hN, pureRun_nil k false N hN]
    · exact pureRun_of_step_eq (pureReadLine_true_of r hr h10 N) k

/-- One model step on a well-formed line followed by a terminator byte. -/
theorem pureReadLine_line (l rest2 : List Nat) (x N : Nat) (hx : x = 13 ∨ x = 10)
    (hlN : l.length < N) (hclean : findCRLF l = none) :
    pureReadLine false (l ++ x :: rest2) N = (l, none, x == 13, rest2) := by
  unfold pureReadLine
  rw [skipLF_false]
  have hf : findCRLF (l ++ x :: rest2) = some l.length := by
    rw [findCRLF_append_of_none _ hclean,
      show findCRLF (x :: rest2) = some 0 from by rw [findCRLF, if_pos hx]]
    simp
  simp only [hf]
  rw [if_pos hlN, List.take_left]
  have hget : (l ++ x :: rest2).getD l.length 0 = x := by
    rw [List.getD_eq_getElem?_getD, List.getElem?_append_right (le_refl _)]
    simp
  have hdrop : (l ++ x :: rest2).drop (l.length + 1) = rest2 := by
    rw [List.drop_append 1]
    rfl
  rw [hget, hdrop]

theorem encodeLines_cons (l : List Nat) (ls : List (List Nat)) (t : List Nat) :
    encodeLines (l :: ls) t = l ++ (t ++ encodeLines ls t) := by
  simp [encodeLines, List.flatten_cons]

theorem canonRun_nil (k : Nat) : canonRun [] k = List.replicate k ([], some .eof) := by
  induction k with
  | zero => rfl
  | succ k ih => simp only [canonRun, ih, List.replicate]

theorem pureRun_encode_lf (N : Nat) (hN : 1 ≤ N) :
    ∀ (ls : List (List Nat)), (∀ l ∈ ls, l.length < N ∧ findCRLF l = none) →
      ∀ (k : Nat), pureRun false (encodeLines ls [10]) N k = canonRun ls k := by
  intro ls
  induction ls with
  | nil =>
    intro _ k
    rw [show encodeLines [] [10] = [] from rfl, pureRun_nil k false N hN, canonRun_nil]
  | cons l ls2 ih =>
    intro hok k
    obtain ⟨hlN, hlc⟩ := hok l (List.mem_cons_self _ _)
    cases k with
    | zero => rfl
    | succ k =>
      have henc : encodeLines (l :: ls2) [10] = l ++ 10 :: encodeLines ls2 [10] := by
        rw [encodeLines_cons]
        rfl
      have hstep := pureReadLine_line l (encodeLines ls2 [10]) 10 N (Or.inr rfl) hlN hlc
      simp only [henc, pureRun, hstep, canonRun]
      rw [show ((10 : Nat) == 13) = false from rfl,
        ih (fun x hx => hok x (List.mem_cons_of_mem _ hx)) k]

theorem pureRun_encode_cr (N : Nat) (hN : 1 ≤ N) :
    ∀ (ls : List (List Nat)), (∀ l ∈ ls, l.length < N ∧ findCRLF l = none) →
      ∀ (k : Nat) (c : Bool), pureRun c (encodeLines ls [13]) N k = canonRun ls k := by
  intro ls
  induction ls with
  | nil =>
    intro _ k c
    rw [show encodeLines [] [13] = [] from rfl, pureRun_nil k c N hN, canonRun_nil]
  | cons l ls2 ih =>
    intro hok k c
    obtain ⟨hlN, hlc⟩ := hok l (List.mem_cons_self _ _)
    have henc : encodeLines (l :: ls2) [13] = l ++ 13 :: encodeLines ls2 [13] := by
      rw [encodeLines_cons]
      rfl
    have hhead : (l ++ 13 :: encodeLines ls2 [13]).head? ≠ some 10 := by
      cases l with
      | nil => simp
      | cons y ys =>
        have hy := (findCRLF_none_iff _).mp hlc y (List.mem_cons_self _ _)
        simp only [List.cons_append, List.head?_cons, ne_eq, Option.some.injEq]
        intro hcon
        exact hy (Or.inr hcon)
    rw [henc, pureRun_flag c _ N k hN hhead]
    cases k with
    | zero => rfl
    | succ k =>
      have hstep := pureReadLine_line l (encodeLines ls2 [13]) 13 N (Or.inl rfl) hlN hlc
      simp only [pureRun, hstep, canonRun]
      rw [show ((13 : Nat) == 13) = true from rfl,
        ih (fun x hx => hok x (List.mem_cons_of_mem _ hx)) k true]

theorem pureRun_encode_crlf (N : Nat) (hN : 1 ≤ N) :
    ∀ (ls : List (List Nat)), (∀ l ∈ ls, l.length < N ∧ findCRLF l = none) →
      ∀ (k : Nat) (c : Bool), pureRun c (encodeLines ls [13, 10]) N k = canonRun ls k := by
  intro ls
  induction ls with
  | nil =>
    intro _ k c
    rw [show encodeLines [] [13, 10] = [] from rfl, pureRun_nil k c N hN, canonRun_nil]
  | cons l ls2 ih =>
    intro hok k c
    obtain ⟨hlN, hlc⟩ := hok l (List.mem_cons_self _ _)
    have henc : encodeLines (l :: ls2) [13, 10] =
        l ++ 13 :: 10 :: encodeLines ls2 [13, 10] := by
      rw [encodeLines_cons]
      rfl
    have hhead : (l ++ 13 :: 10 :: encodeLines ls2 [13, 10]).head? ≠ some 10 := by
      cases l with
      | nil => simp
      | cons y ys =>
        have hy := (findCRLF_none_iff _).mp hlc y (List.mem_cons_self _ _)
        simp only [List.cons_append, List.head?_cons, ne_eq, Option.some.injEq]
        intro hcon
        exact hy (Or.inr hcon)
    rw [henc, pureRun_flag c _ N k hN hhead]
    cases k with
    | zero => rfl
    | succ k =>
      have hstep := pureReadLine_line l (10 :: encodeLines ls2 [13, 10]) 13 N
        (Or.inl rfl) hlN hlc
      simp only [pureRun, hstep, canonRun]
      rw [show ((13 : Nat) == 13) = true from rfl,
        pureRun_of_step_eq (pureReadLine_cons10 (encodeLines ls2 [13, 10]) N) k,
        ih (fun x hx => hok x (List.mem_cons_of_mem _ hx)) k false]

/-- At capacity zero the very first `fill` already fails to grow, so
`ReadLine` returns an empty line with `ErrBufferFull`. -/
theorem readLine_new_zero (src : Source) :
    (ReadLine (ReadBuffer.new src 0)).1 = [] ∧
    (ReadLine (ReadBuffer.new src 0)).2.1 = some .bufferFull := by
  simp [ReadLine, meas, ReadBuffer.new, srcMeas, readLineGo, skipPendingLF, findCRLF,
    fill, compact, grow]

/-! ### Claim theorems for the line reader -/

/-- C3.  For every capacity `N` and every source whose content has no
terminator and is longer than `N` bytes, `ReadLine` on a fresh reader
returns exactly the first `N` bytes of the content together with
`ErrBufferFull`; moreover, over any run from a fresh reader on any source
and for any input whatsoever, no returned line is ever longer than `N`, and
the backing array never exceeds `N`. -/
theorem c3_capacity (N k : Nat) (src src2 : Source) (hg : goodSrc src)
    (hnt : findCRLF src.flatten = none) (hlong : N < src.flatten.length) :
    (ReadLine (ReadBuffer.new src N)).1 = src.flatten.take N ∧
    (ReadLine (ReadBuffer.new src N)).2.1 = some GoErr.bufferFull ∧
    (∀ out ∈ (realRun (ReadBuffer.new src2 N) k).1, out.1.length ≤ N) ∧
    (realRun (ReadBuffer.new src2 N) k).2.bufLen ≤ N := by
  have hweak : InvWeak (ReadBuffer.new src2 N) :=
    ⟨rfl, le_refl _, Nat.zero_le _, Nat.min_le_left _ _⟩
  obtain ⟨w1, w2, w3⟩ := realRun_weak k (ReadBuffer.new src2 N) hweak
  have hlast : (realRun (ReadBuffer.new src2 N) k).2.bufLen ≤ N := by
    obtain ⟨-, -, -, hb⟩ := w2
    rw [w3] at hb
    exact hb
  by_cases hN : 1 ≤ N
  · have hInv := new_Inv src N hN hg
    obtain ⟨h1, h2, -, -, -, -⟩ := ReadLine_pure _ hInv
    have hp : pureReadLine false src.flatten N =
        (src.flatten.take N, some GoErr.bufferFull, false, src.flatten.drop N) := by
      unfold pureReadLine
      rw [skipLF_false]
      simp only [hnt]
      rw [if_pos (by omega)]
    have h1x : (ReadLine (ReadBuffer.new src N)).1 =
        (pureReadLine false src.flatten N).1 := h1
    have h2x : (ReadLine (ReadBuffer.new src N)).2.1 =
        (pureReadLine false src.flatten N).2.1 := h2
    rw [hp] at h1x h2x
    exact ⟨h1x, h2x, w1, hlast⟩
  · have hz : N = 0 := by omega
    subst hz
    obtain ⟨z1, z2⟩ := readLine_new_zero src
    exact ⟨by rw [z1]; rfl, z2, w1, hlast⟩

/-- C9.  From any valid reader state whose remaining stream holds no
terminator and fits under the capacity (in particular, once the byte source
is exhausted down to a final unterminated run, possibly empty), the current
`ReadLine` call returns that run exactly once together with `io.EOF`, and
every subsequent call returns an empty line with `io.EOF`. -/
theorem c9_exhaustion (b : ReadBuffer) (k : Nat) (hInv : Inv b)
    (hnt : findCRLF (absRest b) = none) (hshort : (absRest b).length < b.maxSize) :
    (ReadLine b).1 = absRest b ∧ (ReadLine b).2.1 = some GoErr.eof ∧
    (realRun (ReadLine b).2.2 k).1 = List.replicate k ([], some GoErr.eof) := by
  obtain ⟨h1, h2, h3, h4, h5, h6⟩ := ReadLine_pure b hInv
  have hp : pureReadLine b.crLine (absRest b) b.maxSize =
      (absRest b, some GoErr.eof, b.crLine && (absRest b).isEmpty, []) := by
    unfold pureReadLine
    rw [skipLF_of_no10 _ _ hnt]
    simp only [hnt]
    rw [if_neg (by omega)]
  rw [hp] at h1 h2 h4
  obtain ⟨hr1, -, -⟩ := realRun_pure k (ReadLine b).2.2 h5
  refine ⟨h1, h2, ?_⟩
  rw [hr1, h4, h6, pureRun_nil]
  obtain ⟨-, -, -, hbm, hb1, -, -⟩ := hInv
  omega

/-- C4.  Whatever lines are sent, and however the transport chunks the
bytes, encoding them with LF, CR, or CRLF terminators produces the
identical sequence of `ReadLine` results — each line once with no error,
then empty lines with `io.EOF`.  In particular a CR immediately followed by
LF, even when split across separate fills, acts as one terminator and never
yields an extra empty line. -/
theorem c4_terminators (N k : Nat) (ls : List (List Nat)) (s1 s2 s3 : Source)
    (hN : 1 ≤ N) (hok : ∀ l ∈ ls, l.length < N ∧ findCRLF l = none)
    (hg1 : goodSrc s1) (hg2 : goodSrc s2) (hg3 : goodSrc s3)
    (he1 : s1.flatten = encodeLines ls [10])
    (he2 : s2.flatten = encodeLines ls [13])
    (he3 : s3.flatten = encodeLines ls [13, 10]) :
    (realRun (ReadBuffer.new s1 N) k).1 = canonRun ls k ∧
    (realRun (ReadBuffer.new s2 N) k).1 = canonRun ls k ∧
    (realRun (ReadBuffer.new s3 N) k).1 = canonRun ls k := by
  refine ⟨?_, ?_, ?_⟩
  · obtain ⟨hr1, -, -⟩ := realRun_pure k _ (new_Inv s1 N hN hg1)
    have h2 : pureRun false s1.flatten N k = canonRun ls k := by
      rw [he1]
      exact pureRun_encode_lf N hN ls hok k
    exact hr1.trans h2
  · obtain ⟨hr1, -, -⟩ := realRun_pure k _ (new_Inv s2 N hN hg2)
    have h2 : pureRun false s2.flatten N k = canonRun ls k := by
      rw [he2]
      exact pureRun_encode_cr N hN ls hok k false
    exact hr1.trans h2
  · obtain ⟨hr1, -, -⟩ := realRun_pure k _ (new_Inv s3 N hN hg3)
    have h2 : pureRun false s3.flatten N k = canonRun ls k := by
      rw [he3]
      exact pureRun_encode_crlf N hN ls hok k false
    exact hr1.trans h2

/-! ### The Go test suite of `eventsource_test.go` (`TestSplitLine`),
replayed on the embedding. -/

theorem testSplitLine :
    splitLine (bytes ":bar") = ([], some (bytes "bar")) ∧
    splitLine (bytes "foo:  bar") = (bytes "foo", some (bytes " bar")) ∧
    splitLine (bytes "foo: bar") = (bytes "foo", some (bytes "bar")) ∧
    splitLine (bytes "foo:bar") = (bytes "foo", some (bytes "bar")) ∧
    splitLine (bytes "foo: ") = (bytes "foo", some []) ∧
    splitLine (bytes "foo:") = (bytes "foo", some []) ∧
    splitLine (bytes "foo") = (bytes "foo", none) := by decide

/-! #### General facts about `splitLine` and `procLine` -/

theorem findIdx58_append (pre post : List Nat) (h : ∀ x ∈ pre, x ≠ 58) :
    ∀ i, List.findIdx? (fun x => x == 58) (pre ++ 58 :: post) i =
      some (pre.length + i) := by
  induction pre with
  | nil =>
    intro i
    rw [List.nil_append, List.findIdx?_cons]
    simp
  | cons y ys ih =>
    intro i
    rw [List.cons_append, List.findIdx?_cons,
      if_neg (by simp [h y (List.mem_cons_self _ _)]),
      ih (fun x hx => h x (List.mem_cons_of_mem _ hx)) (i + 1)]
    congr 1
    simp only [List.length_cons]
    omega

/-- `splitLine` on a line whose first colon separates `pre` from `post`:
the key is `pre` and the value is `post` with one leading space stripped. -/
theorem splitLine_split (pre post : List Nat) (h : ∀ x ∈ pre, x ≠ 58) :
    splitLine (pre ++ 58 :: post) =
      (pre, some (if post.head? = some 32 then post.tail else post)) := by
  unfold splitLine
  rw [findIdx58_append pre post h 0]
  show (if pre.length + 0 + 1 < (pre ++ 58 :: post).length ∧
          (pre ++ 58 :: post).getD (pre.length + 0 + 1) 0 = 32 then
        ((pre ++ 58 :: post).take (pre.length + 0),
          some ((pre ++ 58 :: post).drop (pre.length + 0 + 2)))
      else ((pre ++ 58 :: post).take (pre.length + 0),
        some ((pre ++ 58 :: post).drop (pre.length + 0 + 1)))) =
    (pre, some (if post.head? = some 32 then post.tail else post))
  simp only [Nat.add_zero]
  have hkey : (pre ++ 58 :: post).take pre.length = pre := List.take_left pre (58 :: post)
  have hval : (pre ++ 58 :: post).drop (pre.length + 1) = post := by
    rw [List.drop_append 1]
    rfl
  have hlen : (pre ++ 58 :: post).length = pre.length + 1 + post.length := by
    simp
    omega
  cases post with
  | nil =>
    rw [if_neg]
    · rw [hkey, hval]
      rfl
    · rintro ⟨hcon, -⟩
      rw [hlen] at hcon
      simp only [List.length_nil] at hcon
      omega
  | cons x t =>
    have hget : (pre ++ 58 :: x :: t).getD (pre.length + 1) 0 = x := by
      rw [List.getD_eq_getElem?_getD, List.getElem?_append_right (by simp)]
      simp
    by_cases hx : x = 32
    · rw [if_pos (And.intro
        (by rw [hlen]; simp only [List.length_cons]; omega)
        (by rw [hget]; exact hx))]
      rw [hkey]
      have hval2 : (pre ++ 58 :: x :: t).drop (pre.length + 2) = t := by
        rw [List.drop_append 2]
        rfl
      rw [hval2]
      simp [hx]
    · rw [if_neg]
      · rw [hkey, hval]
        simp [hx]
      · rintro ⟨-, hcon⟩
        rw [hget] at hcon
        exact hx hcon

/-- `splitLine` on a line with no colon: the whole line is the key and the
value is nil. -/
theorem splitLine_noColon (line : List Nat) (h : ∀ x ∈ line, x ≠ 58) :
    splitLine line = (line, none) := by
  unfold splitLine
  rw [List.findIdx?_eq_none_iff.mpr (fun x hx => by simp [h x hx])]

theorem trunc_getD (s : GoSlice) : (trunc s).getD [] = [] := by
  cases s <;> rfl

/-- On an empty buffer, an over-limit value makes `appendLimit` return the
nil buffer and `ErrBufferFull`. -/
theorem appendLimit_overflow (s : GoSlice) (ns : List Nat) (limit : Nat)
    (h0 : (s.getD []).length = 0) (h : limit < ns.length) :
    appendLimit s ns limit = (none, some GoErr.bufferFull) := by
  unfold appendLimit
  rw [if_neg (by omega), if_pos (by omega)]

/-- Whenever `appendLimit` reports an error the returned buffer is nil. -/
theorem appendLimit_err_nil (s : GoSlice) (ns : List Nat) (limit : Nat)
    (h : (appendLimit s ns limit).2 ≠ none) : (appendLimit s ns limit).1 = none := by
  unfold appendLimit at h ⊢
  by_cases h1 : (s.getD []).length ≠ 0
  · rw [if_pos h1] at h ⊢
    by_cases h2 : (s.getD []).length + 1 + ns.length > limit
    · rw [if_pos h2]
    · rw [if_neg h2] at h
      simp at h
  · rw [if_neg h1] at h ⊢
    by_cases h2 : ns.length > limit
    · rw [if_pos h2]
    · rw [if_neg h2] at h
      simp at h

/-- Whenever `appendLimit` reports an error, the whole result is the nil
buffer together with `ErrBufferFull` — in both the empty-buffer branch and
the accumulated-length branch. -/
theorem appendLimit_of_err (s : GoSlice) (ns : List Nat) (limit : Nat)
    (h : (appendLimit s ns limit).2 ≠ none) :
    appendLimit s ns limit = (none, some GoErr.bufferFull) := by
  unfold appendLimit at h ⊢
  by_cases h1 : (s.getD []).length ≠ 0
  · rw [if_pos h1] at h ⊢
    by_cases h2 : (s.getD []).length + 1 + ns.length > limit
    · rw [if_pos h2]
    · rw [if_neg h2] at h
      simp at h
  · rw [if_neg h1] at h ⊢
    by_cases h2 : ns.length > limit
    · rw [if_pos h2]
    · rw [if_neg h2] at h
      simp at h

/-- `procLine` on an `id` field line whose value exceeds the cap: the
identifier buffer is set to nil (the `appendLimit` result) and the
per-message error is recorded; nothing is dispatched. -/
theorem procLine_id_overflow (es : ESState) (v : List Nat) (h : es.msgErr = none)
    (h2 : es.bp.maxID < v.length) :
    procLine es (bytes "id: " ++ v) =
      ({ es with idBuf := none, msgErr := some ESErr.idTooLong }, none) := by
  rw [show bytes "id: " ++ v = [105, 100] ++ 58 :: 32 :: v from rfl]
  simp only [procLine]
  rw [if_neg (by simp)]
  rw [if_neg (by simp [h])]
  rw [splitLine_split [105, 100] (32 :: v) (by decide)]
  simp only [Option.getD_some, List.head?_cons, List.tail_cons, eq_self_iff_true,
    if_true]
  rw [if_neg (by decide)]
  rw [if_pos (by decide : ([105, 100] : List Nat) = knownFieldNameID)]
  rw [appendLimit_overflow _ _ _ (by rw [trunc_getD]; rfl) h2]

/-- `procLine` on an `event` field line whose value exceeds the cap: the
event-type buffer is set to nil and the per-message error is recorded;
nothing is dispatched. -/
theorem procLine_event_overflow (es : ESState) (v : List Nat) (h : es.msgErr = none)
    (h2 : es.bp.maxEvent < v.length) :
    procLine es (bytes "event: " ++ v) =
      ({ es with eventBuf := none, msgErr := some ESErr.eventTooLong }, none) := by
  rw [show bytes "event: " ++ v = [101, 118, 101, 110, 116] ++ 58 :: 32 :: v from rfl]
  simp only [procLine]
  rw [if_neg (by simp)]
  rw [if_neg (by simp [h])]
  rw [splitLine_split [101, 118, 101, 110, 116] (32 :: v) (by decide)]
  simp only [Option.getD_some, List.head?_cons, List.tail_cons, eq_self_iff_true,
    if_true]
  rw [if_neg (by decide)]
  rw [if_neg (by decide : ¬ ([101, 118, 101, 110, 116] : List Nat) = knownFieldNameID)]
  rw [if_pos (by decide : ([101, 118, 101, 110, 116] : List Nat) = knownFieldNameEvent)]
  rw [appendLimit_overflow _ _ _ (by rw [trunc_getD]; rfl) h2]

/-- `procLine` on a `data` field line on which `appendLimit` overflows —
covering both a single oversized value and a value that pushes the
accumulated data (previous content plus separator) over the cap, since
`data` is the one field that accumulates across lines: the data buffer is
set to nil and the per-message error is recorded; nothing is
dispatched. -/
theorem procLine_data_overflow (es : ESState) (v : List Nat) (h : es.msgErr = none)
    (h2 : (appendLimit es.dataBuf v es.bp.maxData).2 ≠ none) :
    procLine es (bytes "data: " ++ v) =
      ({ es with dataBuf := none, msgErr := some ESErr.dataTooLong }, none) := by
  rw [show bytes "data: " ++ v = [100, 97, 116, 97] ++ 58 :: 32 :: v from rfl]
  simp only [procLine]
  rw [if_neg (by simp)]
  rw [if_neg (by simp [h])]
  rw [splitLine_split [100, 97, 116, 97] (32 :: v) (by decide)]
  simp only [Option.getD_some, List.head?_cons, List.tail_cons, eq_self_iff_true,
    if_true]
  rw [if_neg (by decide)]
  rw [if_neg (by decide : ¬ ([100, 97, 116, 97] : List Nat) = knownFieldNameID)]
  rw [if_neg (by decide : ¬ ([100, 97, 116, 97] : List Nat) = knownFieldNameEvent)]
  rw [if_pos (by decide : ([100, 97, 116, 97] : List Nat) = knownFieldNameData)]
  rw [appendLimit_of_err _ _ _ h2]

/-- `procLine` on a `retry` field line: the state is unchanged except that a
successfully parsed value replaces the retry timeout (as a millisecond
count, with 64-bit `Duration` wraparound); a failed parse changes nothing,
and nothing is dispatched either way. -/
theorem procLine_retry (es : ESState) (v : List Nat) (h : es.msgErr = none) :
    procLine es (bytes "retry: " ++ v) =
      ({ es with retryTimeout :=
          match parseInt10 v with
          | some ms => wrap64 (ms * 1000000)
          | none => es.retryTimeout }, none) := by
  rw [show bytes "retry: " ++ v = [114, 101, 116, 114, 121] ++ 58 :: 32 :: v from rfl]
  simp only [procLine]
  rw [if_neg (by simp)]
  rw [if_neg (by simp [h])]
  rw [splitLine_split [114, 101, 116, 114, 121] (32 :: v) (by decide)]
  simp only [Option.getD_some, List.head?_cons, List.tail_cons, eq_self_iff_true,
    if_true]
  rw [if_neg (by decide)]
  rw [if_neg (by decide : ¬ ([114, 101, 116, 114, 121] : List Nat) = knownFieldNameID)]
  rw [if_neg (by decide : ¬ ([114, 101, 116, 114, 121] : List Nat) = knownFieldNameEvent)]
  rw [if_neg (by decide : ¬ ([114, 101, 116, 114, 121] : List Nat) = knownFieldNameData)]
  rw [if_pos (by decide : ([114, 101, 116, 114, 121] : List Nat) = knownFieldNameRetry)]
  cases hp : parseInt10 v with
  | some ms => rfl
  | none => rfl

/-! ### Claim theorems for the assembler and controller -/

/-- C1 (failing input).  The end-to-end scenario: the stream
`id: 1\ndata: hello\n\n` does yield exactly one message with identifier
`1` and data `hello` — but after the connection ends, the next request
carries no `Last-Event-Id` header at all (`none`), not `1`: the blank-line
boundary runs `perMessageReset`, which truncates the identifier buffer that
`processRequest` would have copied into the header.  The second conjunct
shows the header logic does fire when the connection dies in the middle of
a message, which is the only way `Last-Event-Id` can ever be sent. -/
theorem c1_lastEventId_not_carried :
    runES 10 (newES ⟨0, 0, 0, 0⟩)
      [ConnRes.ok 200 ctEventStream [bytes "id: 1\ndata: hello\n\n"],
        ConnRes.canceled] =
      [(none, [(⟨some (bytes "1"), none, some (bytes "hello")⟩, none)]),
        (none, [])] ∧
    (runES 10 (newES ⟨0, 0, 0, 0⟩)
      [ConnRes.ok 200 ctEventStream [bytes "id: 7\ndata: x"],
        ConnRes.canceled]).map Prod.fst = [none, some (bytes "7")] := by decide

/-- C5.  A field value over its cap — for any of the three buffered fields:
an `id` or `event` value over its cap, or a `data` line on which the
append overflows, covering in particular the accumulated data length —
records the field's per-message error, sets the buffer to nil and
dispatches nothing; while an error is pending every non-blank line is
ignored without any dispatch; the next blank line dispatches the error in
place of a message and resets; after the reset the error slot is clear and
all field buffers are empty, and processing simply continues with the
following lines (the connection is not torn down). -/
theorem c5_overflow_drains_message (es es2 : ESState) (vi ve vd l : List Nat)
    (rest : List (List Nat)) (e : ESErr) (h1 : es.msgErr = none)
    (h2 : es.bp.maxID < vi.length) (h3 : es.bp.maxEvent < ve.length)
    (h4 : (appendLimit es.dataBuf vd es.bp.maxData).2 ≠ none)
    (h5 : es2.msgErr = some e) (h6 : l ≠ []) :
    procLine es (bytes "id: " ++ vi) =
      ({ es with idBuf := none, msgErr := some ESErr.idTooLong }, none) ∧
    procLine es (bytes "event: " ++ ve) =
      ({ es with eventBuf := none, msgErr := some ESErr.eventTooLong }, none) ∧
    procLine es (bytes "data: " ++ vd) =
      ({ es with dataBuf := none, msgErr := some ESErr.dataTooLong }, none) ∧
    procLine es2 l = (es2, none) ∧
    procLine es2 [] = (perMessageReset es2, some (emptyMessage, some e)) ∧
    (perMessageReset es2).msgErr = none ∧
    (perMessageReset es2).idBuf.getD [] = [] ∧
    (perMessageReset es2).eventBuf.getD [] = [] ∧
    (perMessageReset es2).dataBuf.getD [] = [] ∧
    processLines es2 ([] :: rest) =
      ((emptyMessage, some e) :: (processLines (perMessageReset es2) rest).1,
        (processLines (perMessageReset es2) rest).2) := by
  have hblank : procLine es2 [] = (perMessageReset es2, some (emptyMessage, some e)) := by
    simp only [procLine]
    rw [if_pos (by rfl)]
    simp only [h5]
  refine ⟨procLine_id_overflow es vi h1 h2, procLine_event_overflow es ve h1 h3,
    procLine_data_overflow es vd h1 h4, ?_, hblank, rfl, trunc_getD _, trunc_getD _,
    trunc_getD _, ?_⟩
  · simp only [procLine]
    rw [if_neg (by simp [h6]), if_pos (by simp [h5])]
  · simp only [processLines, hblank]
    rfl

/-- C6 (counterexample).  The value `-1` is not a non-negative integer, so
by the claim the parse should fail and the prior delay should stay; but the
code parses it with `strconv.ParseInt`, which accepts a sign, and the
reconnect delay moves from the initial one second to minus one
millisecond. -/
theorem c6_retry_negative_accepted :
    retrySpecParse (bytes "-1") = none ∧
    (newES ⟨0, 0, 0, 0⟩).retryTimeout = 1000000000 ∧
    (procLine (newES ⟨0, 0, 0, 0⟩) (bytes "retry: -1")).1.retryTimeout = -1000000 ∧
    (procLine (newES ⟨0, 0, 0, 0⟩) (bytes "retry: -1")).1.retryTimeout ≠
      (newES ⟨0, 0, 0, 0⟩).retryTimeout := by decide

/-- C6 (amended).  A retry field value is parsed as a signed base-10 64-bit
integer (`strconv.ParseInt`); on success the reconnect delay becomes the
parsed value in milliseconds (a `time.Duration` multiplication with 64-bit
wraparound), on failure the field is silently ignored: the prior delay and
the rest of the state are unchanged, and no error is recorded or dispatched
in either case. -/
theorem c6_retry_sets_timeout (es : ESState) (v : List Nat) (h : es.msgErr = none) :
    procLine es (bytes "retry: " ++ v) =
      ({ es with retryTimeout :=
          match parseInt10 v with
          | some ms => wrap64 (ms * 1000000)
          | none => es.retryTimeout }, none) :=
  procLine_retry es v h

/-- C7 (failing input).  On the stream `id: 1\n\n\n` the second dispatched
message has no `id` field line, yet its identifier is reported as an
allocated empty slice (`some []`), not as absent (`nil`): `perMessageReset`
truncates rather than drops the buffer.  Conversely on `id:\n\n` the event
does set an (empty) identifier, yet the message reports it as `nil`:
absent and empty are not distinguishable as the claim requires. -/
theorem c7_absent_fields_not_nil :
    (processLines (newES ⟨0, 0, 0, 0⟩) [bytes "id: 1", [], []]).1 =
      [(⟨some (bytes "1"), none, none⟩, none), (⟨some [], none, none⟩, none)] ∧
    some ([] : List Nat) ≠ (none : GoSlice) ∧
    (processLines (newES ⟨0, 0, 0, 0⟩) [bytes "id:", []]).1 =
      [(⟨none, none, none⟩, none)] := by decide

/-- C8.  `splitLine` returns the whole line as key with a nil value when
there is no colon; with a colon it returns the bytes before it as key and
the bytes after it, minus at most one leading space, as value; a line
starting with a colon has an empty key and is treated by the assembler as
a comment: no state change and no dispatch. -/
theorem c8_splitLine_contract (line pre post : List Nat) (es : ESState)
    (h0 : ∀ x ∈ line, x ≠ 58) (h1 : ∀ x ∈ pre, x ≠ 58) (h2 : es.msgErr = none) :
    splitLine line = (line, none) ∧
    splitLine (pre ++ 58 :: post) =
      (pre, some (if post.head? = some 32 then post.tail else post)) ∧
    (splitLine (58 :: post)).1 = [] ∧
    procLine es (58 :: post) = (es, none) := by
  have hcol := splitLine_split [] post (by simp)
  rw [show ([] : List Nat) ++ 58 :: post = 58 :: post from rfl] at hcol
  refine ⟨splitLine_noColon line h0, splitLine_split pre post h1, by rw [hcol], ?_⟩
  simp only [procLine]
  rw [if_neg (by simp), if_neg (by simp [h2]), hcol, if_pos (by rfl)]

/-- C10.  Whenever `appendLimit` reports an error it returns a nil buffer,
so the field buffer being updated is left nil; in particular an oversized
`id` value leaves the identifier buffer nil (any previously stored
resumption identifier is discarded) and a reconnect request built from
that state carries no `Last-Event-Id` header. -/
theorem c10_overflow_discards_buffer (s : GoSlice) (ns v : List Nat) (limit : Nat)
    (es : ESState) (h1 : es.msgErr = none) (h2 : es.bp.maxID < v.length) :
    ((appendLimit s ns limit).2 ≠ none → (appendLimit s ns limit).1 = none) ∧
    (procLine es (bytes "id: " ++ v)).1.idBuf = none ∧
    (procLine es (bytes "id: " ++ v)).1.msgErr = some ESErr.idTooLong ∧
    lastEventId (procLine es (bytes "id: " ++ v)).1 = none := by
  rw [procLine_id_overflow es v h1 h2]
  refine ⟨appendLimit_err_nil s ns limit, rfl, rfl, ?_⟩
  simp [lastEventId]

/-! ### Concrete instantiations of the claim theorems -/

/-- C3 at capacity 2 on the chunked unterminated source `a·bc` and, for the
run bounds, the source `a\nb`. -/
theorem c3_capacity_witness :
    (goodSrc [[97], [98, 99]] ∧
      findCRLF (List.flatten [[97], [98, 99]]) = none ∧
      2 < (List.flatten [[97], [98, 99]]).length) ∧
    ((ReadLine (ReadBuffer.new [[97], [98, 99]] 2)).1 =
        (List.flatten [[97], [98, 99]]).take 2 ∧
      (ReadLine (ReadBuffer.new [[97], [98, 99]] 2)).2.1 = some GoErr.bufferFull ∧
      (∀ out ∈ (realRun (ReadBuffer.new [[97, 10, 98]] 2) 3).1, out.1.length ≤ 2) ∧
      (realRun (ReadBuffer.new [[97, 10, 98]] 2) 3).2.bufLen ≤ 2) :=
  ⟨by decide,
    c3_capacity 2 3 [[97], [98, 99]] [[97, 10, 98]] (by decide) (by decide) (by decide)⟩

/-- C9 on the fresh exhausted-after-`ab` reader with capacity 5, reading
two further times. -/
theorem c9_exhaustion_witness :
    (Inv (ReadBuffer.new [[97, 98]] 5) ∧
      findCRLF (absRest (ReadBuffer.new [[97, 98]] 5)) = none ∧
      (absRest (ReadBuffer.new [[97, 98]] 5)).length <
        (ReadBuffer.new [[97, 98]] 5).maxSize) ∧
    ((ReadLine (ReadBuffer.new [[97, 98]] 5)).1 = absRest (ReadBuffer.new [[97, 98]] 5) ∧
      (ReadLine (ReadBuffer.new [[97, 98]] 5)).2.1 = some GoErr.eof ∧
      (realRun (ReadLine (ReadBuffer.new [[97, 98]] 5)).2.2 2).1 =
        List.replicate 2 ([], some GoErr.eof)) :=
  ⟨by decide,
    c9_exhaustion (ReadBuffer.new [[97, 98]] 5) 2 (by decide) (by decide) (by decide)⟩

/-- C4 on the lines `a` and the empty line, at capacity 2, with the CRLF
encoding split so the CR and the LF arrive in different chunks. -/
theorem c4_terminators_witness :
    (1 ≤ 2 ∧
      (∀ l ∈ [[97], ([] : List Nat)], l.length < 2 ∧ findCRLF l = none) ∧
      goodSrc [[97, 10], [10]] ∧ goodSrc [[97, 13], [13]] ∧
      goodSrc [[97, 13], [10, 13, 10]] ∧
      List.flatten [[97, 10], [10]] = encodeLines [[97], []] [10] ∧
      List.flatten [[97, 13], [13]] = encodeLines [[97], []] [13] ∧
      List.flatten [[97, 13], [10, 13, 10]] = encodeLines [[97], []] [13, 10]) ∧
    ((realRun (ReadBuffer.new [[97, 10], [10]] 2) 4).1 = canonRun [[97], []] 4 ∧
      (realRun (ReadBuffer.new [[97, 13], [13]] 2) 4).1 = canonRun [[97], []] 4 ∧
      (realRun (ReadBuffer.new [[97, 13], [10, 13, 10]] 2) 4).1 = canonRun [[97], []] 4) :=
  ⟨by decide,
    c4_terminators 2 4 [[97], []] [[97, 10], [10]] [[97, 13], [13]]
      [[97, 13], [10, 13, 10]] (by decide) (by decide) (by decide) (by decide)
      (by decide) (by decide) (by decide) (by decide)⟩

/-- C5 with caps id 2, event 3, data 4; the oversized values `abc` and
`abcd`; a data line `xy` that overflows only through the two bytes `ab`
already accumulated in the data buffer; a pending line `x`; and one
following blank line. -/
theorem c5_overflow_drains_message_witness :
    (({ newES ⟨2, 3, 4, 0⟩ with dataBuf := some (bytes "ab") } : ESState).msgErr = none ∧
      ({ newES ⟨2, 3, 4, 0⟩ with dataBuf := some (bytes "ab") } : ESState).bp.maxID <
        (bytes "abc").length ∧
      ({ newES ⟨2, 3, 4, 0⟩ with dataBuf := some (bytes "ab") } : ESState).bp.maxEvent <
        (bytes "abcd").length ∧
      (appendLimit
          ({ newES ⟨2, 3, 4, 0⟩ with dataBuf := some (bytes "ab") } : ESState).dataBuf
          (bytes "xy")
          ({ newES ⟨2, 3, 4, 0⟩ with dataBuf := some (bytes "ab") } : ESState).bp.maxData).2 ≠
        none ∧
      ({ newES ⟨2, 3, 4, 0⟩ with msgErr := some ESErr.idTooLong } : ESState).msgErr =
        some ESErr.idTooLong ∧
      ([120] : List Nat) ≠ []) ∧
    (procLine { newES ⟨2, 3, 4, 0⟩ with dataBuf := some (bytes "ab") }
        (bytes "id: " ++ bytes "abc") =
      ({ { newES ⟨2, 3, 4, 0⟩ with dataBuf := some (bytes "ab") } with
          idBuf := none, msgErr := some ESErr.idTooLong }, none) ∧
    procLine { newES ⟨2, 3, 4, 0⟩ with dataBuf := some (bytes "ab") }
        (bytes "event: " ++ bytes "abcd") =
      ({ { newES ⟨2, 3, 4, 0⟩ with dataBuf := some (bytes "ab") } with
          eventBuf := none, msgErr := some ESErr.eventTooLong }, none) ∧
    procLine { newES ⟨2, 3, 4, 0⟩ with dataBuf := some (bytes "ab") }
        (bytes "data: " ++ bytes "xy") =
      ({ { newES ⟨2, 3, 4, 0⟩ with dataBuf := some (bytes "ab") } with
          dataBuf := none, msgErr := some ESErr.dataTooLong }, none) ∧
    procLine { newES ⟨2, 3, 4, 0⟩ with msgErr := some ESErr.idTooLong } [120] =
      ({ newES ⟨2, 3, 4, 0⟩ with msgErr := some ESErr.idTooLong }, none) ∧
    procLine { newES ⟨2, 3, 4, 0⟩ with msgErr := some ESErr.idTooLong } [] =
      (perMessageReset { newES ⟨2, 3, 4, 0⟩ with msgErr := some ESErr.idTooLong },
        some (emptyMessage, some ESErr.idTooLong)) ∧
    (perMessageReset { newES ⟨2, 3, 4, 0⟩ with msgErr := some ESErr.idTooLong }).msgErr =
      none ∧
    (perMessageReset
        { newES ⟨2, 3, 4, 0⟩ with msgErr := some ESErr.idTooLong }).idBuf.getD [] = [] ∧
    (perMessageReset
        { newES ⟨2, 3, 4, 0⟩ with msgErr := some ESErr.idTooLong }).eventBuf.getD [] = [] ∧
    (perMessageReset
        { newES ⟨2, 3, 4, 0⟩ with msgErr := some ESErr.idTooLong }).dataBuf.getD [] = [] ∧
    processLines { newES ⟨2, 3, 4, 0⟩ with msgErr := some ESErr.idTooLong } ([] :: [[]]) =
      ((emptyMessage, some ESErr.idTooLong) ::
          (processLines
            (perMessageReset { newES ⟨2, 3, 4, 0⟩ with msgErr := some ESErr.idTooLong })
            [[]]).1,
        (processLines
          (perMessageReset { newES ⟨2, 3, 4, 0⟩ with msgErr := some ESErr.idTooLong })
          [[]]).2)) :=
  ⟨by decide,
    c5_overflow_drains_message { newES ⟨2, 3, 4, 0⟩ with dataBuf := some (bytes "ab") }
      { newES ⟨2, 3, 4, 0⟩ with msgErr := some ESErr.idTooLong } (bytes "abc")
      (bytes "abcd") (bytes "xy") [120] [[]] ESErr.idTooLong (by decide) (by decide)
      (by decide) (by decide) (by decide) (by decide)⟩

/-- C6 (amended) on `retry: 5000` from the initial state: the reconnect
delay becomes 5000 milliseconds. -/
theorem c6_retry_sets_timeout_witness :
    (newES ⟨0, 0, 0, 0⟩).msgErr = none ∧
    procLine (newES ⟨0, 0, 0, 0⟩) (bytes "retry: " ++ bytes "5000") =
      ({ newES ⟨0, 0, 0, 0⟩ with retryTimeout :=
          (match parseInt10 (bytes "5000") with
          | some ms => wrap64 (ms * 1000000)
          | none => (newES ⟨0, 0, 0, 0⟩).retryTimeout) }, none) :=
  ⟨by decide, c6_retry_sets_timeout (newES ⟨0, 0, 0, 0⟩) (bytes "5000") (by decide)⟩

/-- C8 on the colon-free line `foo`, the split of `key: bar`, and the
comment line `: bar`. -/
theorem c8_splitLine_contract_witness :
    ((∀ x ∈ bytes "foo", x ≠ 58) ∧ (∀ x ∈ bytes "key", x ≠ 58) ∧
      (newES ⟨0, 0, 0, 0⟩).msgErr = none) ∧
    (splitLine (bytes "foo") = (bytes "foo", none) ∧
      splitLine (bytes "key" ++ 58 :: bytes " bar") =
        (bytes "key",
          some (if (bytes " bar").head? = some 32 then (bytes " bar").tail
            else bytes " bar")) ∧
      (splitLine (58 :: bytes " bar")).1 = [] ∧
      procLine (newES ⟨0, 0, 0, 0⟩) (58 :: bytes " bar") = (newES ⟨0, 0, 0, 0⟩, none)) :=
  ⟨by decide,
    c8_splitLine_contract (bytes "foo") (bytes "key") (bytes " bar")
      (newES ⟨0, 0, 0, 0⟩) (by decide) (by decide) (by decide)⟩

/-- C10 with a stored identifier `old`, an appended value `xyz` over the
limit 2, and the oversized `id` line `id: abc` at cap 2. -/
theorem c10_overflow_discards_buffer_witness :
    ((newES ⟨2, 0, 0, 0⟩).msgErr = none ∧
      (newES ⟨2, 0, 0, 0⟩).bp.maxID < (bytes "abc").length) ∧
    (((appendLimit (some (bytes "old")) (bytes "xyz") 2).2 ≠ none →
        (appendLimit (some (bytes "old")) (bytes "xyz") 2).1 = none) ∧
      (procLine (newES ⟨2, 0, 0, 0⟩) (bytes "id: " ++ bytes "abc")).1.idBuf = none ∧
      (procLine (newES ⟨2, 0, 0, 0⟩) (bytes "id: " ++ bytes "abc")).1.msgErr =
        some ESErr.idTooLong ∧
      lastEventId (procLine (newES ⟨2, 0, 0, 0⟩) (bytes "id: " ++ bytes "abc")).1 =
        none) :=
  ⟨by decide,
    c10_overflow_discards_buffer (some (bytes "old")) (bytes "xyz") (bytes "abc") 2
      (newES ⟨2, 0, 0, 0⟩) (by decide) (by decide)⟩

end EventSource

